import Mathlib

/-!
Verification of the image-processing kernel (process_image.c, resize_image.c).

The C code is shallowly embedded: an image is a record of three natural
dimensions and a flat list of samples (C floats are modelled as exact
rationals).  Pixel coordinates are integers, as in C.  The linear offset
arithmetic of the C source is reproduced verbatim; an in-bounds read of the
buffer returns the stored sample, while a read past the end of the list
returns the default 0 (in C such a read is undefined behaviour, so theorems
about out-of-range accesses are stated on the computed offsets themselves).
In-place mutation is modelled by returning the updated image value.
-/

/-- An image: width `w`, height `h`, channel count `c`, and a flat buffer
`data` of `w*h*c` samples in planar layout (channel slowest, row next,
column fastest). -/
@[ext]
structure image where
  w : ℕ
  h : ℕ
  c : ℕ
  data : List ℚ
  deriving DecidableEq

/-- Linear offset of coordinate `(x, y, ch)`: `x + y*w + w*h*ch`,
exactly the index expression used throughout the C source. -/
def idx (im : image) (x y ch : ℕ) : ℕ :=
  x + y * im.w + im.w * im.h * ch

/-- The stored sample at coordinate `(x, y, ch)` (default 0 past the end
of the buffer). -/
def sample (im : image) (x y ch : ℕ) : ℚ :=
  im.data.getD (idx im x y ch) 0

/-- The linear offset computed by `get_pixel` after its clamping steps
(process_image.c lines 28-36): each coordinate is replaced by `bound - 1`
when strictly greater than its bound and by `0` when negative.  Note the
comparisons use `>`, not `>=`, so a coordinate equal to its bound survives
unchanged. -/
def get_index (im : image) (x y c : ℤ) : ℤ :=
  let x1 : ℤ := if x > (im.w : ℤ) then (im.w : ℤ) - 1 else x
  let y1 : ℤ := if y > (im.h : ℤ) then (im.h : ℤ) - 1 else y
  let c1 : ℤ := if c > (im.c : ℤ) then (im.c : ℤ) - 1 else c
  let x2 : ℤ := if x1 < 0 then 0 else x1
  let y2 : ℤ := if y1 < 0 then 0 else y1
  let c2 : ℤ := if c1 < 0 then 0 else c1
  x2 + y2 * (im.w : ℤ) + (im.w : ℤ) * (im.h : ℤ) * c2

/-- `get_pixel`: clamp the coordinates (per `get_index`) and read the
buffer at the resulting linear offset. -/
def get_pixel (im : image) (x y c : ℤ) : ℚ :=
  im.data.getD (get_index im x y c).toNat 0

/-- The write target of `set_pixel` (process_image.c lines 56-64):
`none` when one of the early-return guards fires (coordinate strictly
greater than its bound, or negative), otherwise `some` of the linear
offset.  As in `get_pixel`, the guards use `>`, not `>=`. -/
def set_index (im : image) (x y c : ℤ) : Option ℤ :=
  if x > (im.w : ℤ) then none else
  if y > (im.h : ℤ) then none else
  if c > (im.c : ℤ) then none else
  if x < 0 then none else
  if y < 0 then none else
  if c < 0 then none else
  some (x + y * (im.w : ℤ) + (im.w : ℤ) * (im.h : ℤ) * c)

/-- `set_pixel`: drop the write when a guard fires, otherwise store `v`
at the computed linear offset. -/
def set_pixel (im : image) (x y c : ℤ) (v : ℚ) : image :=
  match set_index im x y c with
  | none => im
  | some k => { im with data := im.data.set k.toNat v }

/-- `make_image`: a fresh `w*h*c` buffer (the external allocator is
assumed to zero-fill, per the spec data model). -/
def make_image (w h c : ℕ) : image :=
  ⟨w, h, c, List.replicate (w * h * c) 0⟩

/-- `copy_image` (process_image.c lines 67-84): a new image of the same
dimensions whose buffer holds the same `w*h*c` samples (the C code
memcpy-s the whole buffer into a fresh allocation; in this persistent
model the copy is the same value). -/
def copy_image (im : image) : image :=
  ⟨im.w, im.h, im.c, im.data⟩

/-- `rgb_to_grayscale` (process_image.c lines 86-122): build a fresh
single-channel image and store the luma sum
`R*0.299 + G*0.587 + B*0.114` at every spatial coordinate, reading the
three channels of the source through `get_pixel`.  The C code asserts
`im.c == 3`; that precondition appears as a hypothesis of the theorems. -/
def rgb_to_grayscale (im : image) : image :=
  (List.range im.w).foldl (fun accI (i : ℕ) =>
    (List.range im.h).foldl (fun accJ (j : ℕ) =>
      set_pixel accJ (i : ℤ) (j : ℤ) ((0 : ℕ) : ℤ)
        (get_pixel im (i : ℤ) (j : ℤ) 0 * (299/1000) +
         get_pixel im (i : ℤ) (j : ℤ) 1 * (587/1000) +
         get_pixel im (i : ℤ) (j : ℤ) 2 * (114/1000)))
      accI)
    (make_image im.w im.h 1)

/-- `shift_image` (process_image.c lines 124-145): add `v` to every pixel
of channel `c`, reading and writing in place through the accessors. -/
def shift_image (im : image) (c : ℤ) (v : ℚ) : image :=
  (List.range im.w).foldl (fun accI (i : ℕ) =>
    (List.range im.h).foldl (fun accJ (j : ℕ) =>
      set_pixel accJ (i : ℤ) (j : ℤ) c (get_pixel accJ (i : ℤ) (j : ℤ) c + v))
      accI)
    im

/-- Body of the `clamp_image` triple loop (process_image.c lines 167-168):
rewrite the sample to 1 when above 1, then re-read and rewrite to 0 when
below 0. -/
def clamp_step (im : image) (i j ch : ℤ) : image :=
  let im1 := if get_pixel im i j ch > 1 then set_pixel im i j ch 1 else im
  if get_pixel im1 i j ch < 0 then set_pixel im1 i j ch 0 else im1

/-- `clamp_image` (process_image.c lines 147-172): apply `clamp_step` to
every sample of every channel, in place. -/
def clamp_image (im : image) : image :=
  (List.range im.w).foldl (fun accI (i : ℕ) =>
    (List.range im.h).foldl (fun accJ (j : ℕ) =>
      (List.range im.c).foldl (fun accC (ch : ℕ) =>
        clamp_step accC (i : ℤ) (j : ℤ) (ch : ℤ))
        accJ)
      accI)
    im

/-- `three_way_max` (process_image.c lines 176-188). -/
def three_way_max (a b c : ℚ) : ℚ :=
  if a > b then (if a > c then a else c) else (if b > c then b else c)

/-- `three_way_min` (process_image.c lines 190-202). -/
def three_way_min (a b c : ℚ) : ℚ :=
  if a < b then (if a < c then a else c) else (if b < c then b else c)

/-- Loop body of `rgb_to_hsv` (process_image.c lines 225-248) as a pure
function from a pixel's (R, G, B) to its (hue, saturation, value). -/
def rgb_to_hsv_pixel (red green blue : ℚ) : ℚ × ℚ × ℚ :=
  let value := three_way_max red green blue
  let mn := three_way_min red green blue
  let diff := value - mn
  let saturation := if value > 0 then diff / value else 0
  let hue :=
    if diff ≠ 0 then
      let hue0 :=
        if value = red then (green - blue) / diff
        else if value = green then (blue - red) / diff + 2
        else (red - green) / diff + 4
      if hue0 < 0 then hue0 / 6 + 1 else hue0 / 6
    else 0
  (hue, saturation, value)

/-- One pixel of `rgb_to_hsv` (process_image.c lines 225-252): read
channels 0, 1, 2, transform, write hue, saturation, value back. -/
def rgb_to_hsv_step (im : image) (i j : ℤ) : image :=
  let p := rgb_to_hsv_pixel (get_pixel im i j 0) (get_pixel im i j 1) (get_pixel im i j 2)
  set_pixel (set_pixel (set_pixel im i j 0 p.1) i j 1 p.2.1) i j 2 p.2.2

/-- `rgb_to_hsv` (process_image.c lines 204-255): apply the pixel
transform over all spatial coordinates, in place. -/
def rgb_to_hsv (im : image) : image :=
  (List.range im.w).foldl (fun accI (i : ℕ) =>
    (List.range im.h).foldl (fun accJ (j : ℕ) => rgb_to_hsv_step accJ (i : ℤ) (j : ℤ)) accI)
    im

/-- C's `fmod` (remainder of truncated division), used by `hsv_to_rgb`. -/
def fmodQ (x y : ℚ) : ℚ :=
  x - y * (if 0 ≤ x / y then (⌊x / y⌋ : ℚ) else (⌈x / y⌉ : ℚ))

/-- Loop body of `hsv_to_rgb` (process_image.c lines 276-337) as a pure
function from a pixel's (hue, saturation, value) to its (R, G, B):
`chroma = value*saturation`, `hh = hue*6`,
`bigX = chroma*(1 - |fmod(hh,2) - 1|)`, hexagon sector selection on `hh`,
then add `diff = value - chroma` to every component. -/
def hsv_to_rgb_pixel (hue saturation value : ℚ) : ℚ × ℚ × ℚ :=
  let chroma := value * saturation
  let hh := hue * 6
  let bigX := chroma * (1 - |fmodQ hh 2 - 1|)
  let diff := value - chroma
  let rgb :=
    if 0 ≤ hh ∧ hh ≤ 1 then (chroma, bigX, (0 : ℚ))
    else if 1 ≤ hh ∧ hh ≤ 2 then (bigX, chroma, 0)
    else if 2 ≤ hh ∧ hh ≤ 3 then (0, chroma, bigX)
    else if 3 ≤ hh ∧ hh ≤ 4 then (0, bigX, chroma)
    else if 4 ≤ hh ∧ hh ≤ 5 then (bigX, 0, chroma)
    else if 5 ≤ hh ∧ hh ≤ 6 then (chroma, 0, bigX)
    else (0, 0, 0)
  (rgb.1 + diff, rgb.2.1 + diff, rgb.2.2 + diff)

/-- One pixel of `hsv_to_rgb` (process_image.c lines 276-341). -/
def hsv_to_rgb_step (im : image) (i j : ℤ) : image :=
  let p := hsv_to_rgb_pixel (get_pixel im i j 0) (get_pixel im i j 1) (get_pixel im i j 2)
  set_pixel (set_pixel (set_pixel im i j 0 p.1) i j 1 p.2.1) i j 2 p.2.2

/-- `hsv_to_rgb` (process_image.c lines 257-344): apply the pixel
transform over all spatial coordinates, in place. -/
def hsv_to_rgb (im : image) : image :=
  (List.range im.w).foldl (fun accI (i : ℕ) =>
    (List.range im.h).foldl (fun accJ (j : ℕ) => hsv_to_rgb_step accJ (i : ℤ) (j : ℤ)) accI)
    im

/-- C's `round` (ties away from zero), used by `nn_interpolate`. -/
def roundC (x : ℚ) : ℤ :=
  if x < 0 then -⌊-x + 1/2⌋ else ⌊x + 1/2⌋

/-- `nn_interpolate` (resize_image.c lines 4-21): round both coordinates
to the nearest integer and delegate to `get_pixel`. -/
def nn_interpolate (im : image) (x y : ℚ) (c : ℤ) : ℚ :=
  get_pixel im (roundC x) (roundC y) c

/-- `nn_resize` (resize_image.c lines 23-64): allocate a `w x h` image
with `im.c` channels and fill every destination sample by
nearest-neighbour sampling at `x = ratio_x*col + (-0.5 + 0.5*ratio_x)`
(and analogously for `y`), looping row-major with channels innermost. -/
def nn_resize (im : image) (w h : ℕ) : image :=
  let ratio_x : ℚ := (im.w : ℚ) / (w : ℚ)
  let cfx : ℚ := -(1/2) + (1/2) * ratio_x
  let ratio_y : ℚ := (im.h : ℚ) / (h : ℚ)
  let cfy : ℚ := -(1/2) + (1/2) * ratio_y
  (List.range h).foldl (fun accR (row : ℕ) =>
    (List.range w).foldl (fun accC (col : ℕ) =>
      (List.range im.c).foldl (fun accZ (z : ℕ) =>
        set_pixel accZ (col : ℤ) (row : ℤ) (z : ℤ)
          (nn_interpolate im (ratio_x * (col : ℚ) + cfx) (ratio_y * (row : ℚ) + cfy) (z : ℤ)))
        accC)
      accR)
    (make_image w h im.c)

/-- `bilinear_interpolate` (resize_image.c lines 66-98): fetch the four
samples at the floor/ceil corners of `(x, y)` and blend them with the
weights of the C source: `q1 = (bottom-y)*v1 + (y-top)*v3`,
`q2 = (bottom-y)*v2 + (y-top)*v4`, `q = (x-left)*q2 + (right-x)*q1`. -/
def bilinear_interpolate (im : image) (x y : ℚ) (c : ℤ) : ℚ :=
  let left : ℤ := ⌊x⌋
  let right : ℤ := ⌈x⌉
  let bottom : ℤ := ⌈y⌉
  let top : ℤ := ⌊y⌋
  let v1 := get_pixel im left top c
  let v2 := get_pixel im right top c
  let v3 := get_pixel im left bottom c
  let v4 := get_pixel im right bottom c
  let q1 := ((bottom : ℚ) - y) * v1 + (y - (top : ℚ)) * v3
  let q2 := ((bottom : ℚ) - y) * v2 + (y - (top : ℚ)) * v4
  (x - (left : ℚ)) * q2 + ((right : ℚ) - x) * q1

/-- `bilinear_resize` (resize_image.c lines 100-142): same driver loop as
`nn_resize`, sampling through `bilinear_interpolate`. -/
def bilinear_resize (im : image) (w h : ℕ) : image :=
  let ratio_x : ℚ := (im.w : ℚ) / (w : ℚ)
  let cfx : ℚ := -(1/2) + (1/2) * ratio_x
  let ratio_y : ℚ := (im.h : ℚ) / (h : ℚ)
  let cfy : ℚ := -(1/2) + (1/2) * ratio_y
  (List.range h).foldl (fun accR (row : ℕ) =>
    (List.range w).foldl (fun accC (col : ℕ) =>
      (List.range im.c).foldl (fun accZ (z : ℕ) =>
        set_pixel accZ (col : ℤ) (row : ℤ) (z : ℤ)
          (bilinear_interpolate im (ratio_x * (col : ℚ) + cfx) (ratio_y * (row : ℚ) + cfy) (z : ℤ)))
        accC)
      accR)
    (make_image w h im.c)

/-- Component `ch` of an (R,G,B) or (H,S,V) triple. -/
def comp3 (p : ℚ × ℚ × ℚ) : ℕ → ℚ
  | 0 => p.1
  | 1 => p.2.1
  | _ => p.2.2

/-- The clamp-to-unit-range map applied per sample by `clamp_image`. -/
def clampQ (v : ℚ) : ℚ :=
  if v > 1 then 1 else if v < 0 then 0 else v

/-- Both dimensions and buffer length agree. -/
def dimsEq (a b : image) : Prop :=
  a.w = b.w ∧ a.h = b.h ∧ a.c = b.c ∧ a.data.length = b.data.length

/-- A concrete 2x2 single-channel image with samples 1,2,3,4. -/
def img2x2 : image := ⟨2, 2, 1, [1, 2, 3, 4]⟩

/-- A concrete 1x1 single-channel image with sample 5. -/
def img1x1 : image := ⟨1, 1, 1, [5]⟩

lemma dimsEq_refl (a : image) : dimsEq a a := ⟨rfl, rfl, rfl, rfl⟩

lemma dimsEq_trans {a b c : image} (h1 : dimsEq a b) (h2 : dimsEq b c) : dimsEq a c :=
  ⟨h1.1.trans h2.1, h1.2.1.trans h2.2.1, h1.2.2.1.trans h2.2.2.1, h1.2.2.2.trans h2.2.2.2⟩

lemma getD_set_self (l : List ℚ) (n : ℕ) (v : ℚ) (h : n < l.length) :
    (l.set n v).getD n 0 = v := by
  simp [List.getD_eq_getElem?_getD, List.getElem?_set_eq_of_lt _ h]

lemma getD_set_ne (l : List ℚ) {n m : ℕ} (v : ℚ) (h : n ≠ m) :
    (l.set n v).getD m 0 = l.getD m 0 := by
  simp [List.getD_eq_getElem?_getD, List.getElem?_set_ne h]

lemma idx_lt (im : image) {x y ch : ℕ} (hx : x < im.w) (hy : y < im.h) (hch : ch < im.c) :
    idx im x y ch < im.w * im.h * im.c := by
  unfold idx
  have h1 : x + y * im.w + 1 ≤ im.w * im.h := by
    calc x + y * im.w + 1 = (x + 1) + y * im.w := by ring
      _ ≤ im.w + y * im.w := by omega
      _ = (y + 1) * im.w := by ring
      _ ≤ im.h * im.w := Nat.mul_le_mul_right _ (Nat.succ_le_of_lt hy)
      _ = im.w * im.h := Nat.mul_comm _ _
  have h2 : im.w * im.h * (ch + 1) ≤ im.w * im.h * im.c :=
    Nat.mul_le_mul_left _ (Nat.succ_le_of_lt hch)
  have h3 : x + y * im.w + im.w * im.h * ch + 1 ≤ im.w * im.h * (ch + 1) := by
    calc x + y * im.w + im.w * im.h * ch + 1
        = (x + y * im.w + 1) + im.w * im.h * ch := by ring
      _ ≤ im.w * im.h + im.w * im.h * ch := by omega
      _ = im.w * im.h * (ch + 1) := by ring
  omega

lemma idx_decomp (im : image) {x y ch : ℕ} (hx : x < im.w) (hy : y < im.h) :
    idx im x y ch % im.w = x ∧ (idx im x y ch / im.w) % im.h = y ∧
      idx im x y ch / (im.w * im.h) = ch := by
  have hw : 0 < im.w := Nat.pos_of_ne_zero (by omega)
  have hh : 0 < im.h := Nat.pos_of_ne_zero (by omega)
  have e1 : idx im x y ch = x + im.w * (y + im.h * ch) := by unfold idx; ring
  have ediv : idx im x y ch / im.w = y + im.h * ch := by
    rw [e1, Nat.add_mul_div_left _ _ hw, Nat.div_eq_of_lt hx, Nat.zero_add]
  refine ⟨?_, ?_, ?_⟩
  · rw [e1, Nat.add_mul_mod_self_left, Nat.mod_eq_of_lt hx]
  · rw [ediv, Nat.add_mul_mod_self_left, Nat.mod_eq_of_lt hy]
  · rw [← Nat.div_div_eq_div_mul, ediv, Nat.add_mul_div_left _ _ hh,
      Nat.div_eq_of_lt hy, Nat.zero_add]

lemma idx_inj (im : image) {x y ch x1 y1 ch1 : ℕ}
    (hx : x < im.w) (hy : y < im.h) (hx1 : x1 < im.w) (hy1 : y1 < im.h)
    (he : idx im x y ch = idx im x1 y1 ch1) : x = x1 ∧ y = y1 ∧ ch = ch1 := by
  obtain ⟨a1, a2, a3⟩ := idx_decomp im hx hy
  obtain ⟨b1, b2, b3⟩ := idx_decomp im hx1 hy1
  rw [he] at a1 a2 a3
  exact ⟨a1.symm.trans b1, a2.symm.trans b2, a3.symm.trans b3⟩

lemma idx_decode (im : image) {m : ℕ} (hm : m < im.w * im.h * im.c) :
    ∃ x y ch, x < im.w ∧ y < im.h ∧ ch < im.c ∧ idx im x y ch = m := by
  have hw : 0 < im.w := by
    rcases Nat.eq_zero_or_pos im.w with h | h
    · rw [h] at hm; simp at hm
    · exact h
  have hh : 0 < im.h := by
    rcases Nat.eq_zero_or_pos im.h with h | h
    · rw [h] at hm; simp at hm
    · exact h
  have hwh : 0 < im.w * im.h := Nat.mul_pos hw hh
  refine ⟨m % im.w, (m / im.w) % im.h, m / (im.w * im.h),
    Nat.mod_lt _ hw, Nat.mod_lt _ hh, ?_, ?_⟩
  · rw [Nat.div_lt_iff_lt_mul hwh]
    calc m < im.w * im.h * im.c := hm
      _ = im.c * (im.w * im.h) := by ring
  · have h1 := Nat.div_add_mod m im.w
    have h2 := Nat.div_add_mod (m / im.w) im.h
    have h3 : m / im.w / im.h = m / (im.w * im.h) := Nat.div_div_eq_div_mul _ _ _
    calc idx im (m % im.w) ((m / im.w) % im.h) (m / (im.w * im.h))
        = (im.h * (m / im.w / im.h) + (m / im.w) % im.h) * im.w + m % im.w := by
          unfold idx; rw [h3]; ring
      _ = (m / im.w) * im.w + m % im.w := by rw [h2]
      _ = im.w * (m / im.w) + m % im.w := by rw [Nat.mul_comm]
      _ = m := h1

lemma get_index_valid (im : image) {x y ch : ℕ}
    (hx : x < im.w) (hy : y < im.h) (hch : ch < im.c) :
    get_index im (x : ℤ) (y : ℤ) (ch : ℤ) = (idx im x y ch : ℤ) := by
  unfold get_index
  simp only []
  rw [if_neg (by omega : ¬ ((x : ℤ) > (im.w : ℤ))),
      if_neg (by omega : ¬ ((y : ℤ) > (im.h : ℤ))),
      if_neg (by omega : ¬ ((ch : ℤ) > (im.c : ℤ))),
      if_neg (by omega : ¬ ((x : ℤ) < 0)),
      if_neg (by omega : ¬ ((y : ℤ) < 0)),
      if_neg (by omega : ¬ ((ch : ℤ) < 0))]
  unfold idx
  push_cast
  ring

lemma get_pixel_valid (im : image) {x y ch : ℕ}
    (hx : x < im.w) (hy : y < im.h) (hch : ch < im.c) :
    get_pixel im (x : ℤ) (y : ℤ) (ch : ℤ) = sample im x y ch := by
  unfold get_pixel sample
  rw [get_index_valid im hx hy hch, Int.toNat_natCast]

lemma set_index_valid (im : image) {x y ch : ℕ}
    (hx : x < im.w) (hy : y < im.h) (hch : ch < im.c) :
    set_index im (x : ℤ) (y : ℤ) (ch : ℤ) = some ((idx im x y ch : ℕ) : ℤ) := by
  unfold set_index
  rw [if_neg (by omega : ¬ ((x : ℤ) > (im.w : ℤ))),
      if_neg (by omega : ¬ ((y : ℤ) > (im.h : ℤ))),
      if_neg (by omega : ¬ ((ch : ℤ) > (im.c : ℤ))),
      if_neg (by omega : ¬ ((x : ℤ) < 0)),
      if_neg (by omega : ¬ ((y : ℤ) < 0)),
      if_neg (by omega : ¬ ((ch : ℤ) < 0))]
  congr 1

lemma set_pixel_valid (im : image) {x y ch : ℕ}
    (hx : x < im.w) (hy : y < im.h) (hch : ch < im.c) (v : ℚ) :
    set_pixel im (x : ℤ) (y : ℤ) (ch : ℤ) v =
      { im with data := im.data.set (idx im x y ch) v } := by
  unfold set_pixel
  rw [set_index_valid im hx hy hch]
  simp [Int.toNat_natCast]

lemma set_pixel_dims (im : image) (x y c : ℤ) (v : ℚ) :
    dimsEq (set_pixel im x y c v) im := by
  unfold set_pixel
  cases set_index im x y c with
  | none => exact dimsEq_refl _
  | some k => exact ⟨rfl, rfl, rfl, by simp⟩

lemma foldl_dims {σ : Type} (s : image → σ → image)
    (Hdims : ∀ b a, dimsEq (s b a) b) :
    ∀ (l : List σ) (acc : image), dimsEq (l.foldl s acc) acc := by
  intro l
  induction l with
  | nil => intro acc; exact dimsEq_refl _
  | cons a t ih =>
      intro acc
      exact dimsEq_trans (ih (s acc a)) (Hdims acc a)

lemma foldl_frame {σ : Type} (s : image → σ → image) (region : σ → ℕ → Prop)
    (im : image) (Hdims : ∀ b a, dimsEq (s b a) b) :
    ∀ l : List σ,
      (∀ b a, a ∈ l → dimsEq b im → ∀ m, ¬ region a m →
        (s b a).data.getD m 0 = b.data.getD m 0) →
      ∀ acc : image, dimsEq acc im → ∀ m : ℕ, (∀ a ∈ l, ¬ region a m) →
        (l.foldl s acc).data.getD m 0 = acc.data.getD m 0 := by
  intro l
  induction l with
  | nil => intro _ acc _ m _; rfl
  | cons a t ih =>
      intro Hframe acc hdims m hm
      rw [List.foldl_cons,
        ih (fun b x hx hb => Hframe b x (List.mem_cons_of_mem _ hx) hb) (s acc a)
          (dimsEq_trans (Hdims acc a) hdims) m
          (fun b hb => hm b (List.mem_cons_of_mem _ hb)),
        Hframe acc a (List.mem_cons_self _ _) hdims m (hm a (List.mem_cons_self _ _))]

lemma foldl_effect {σ : Type} (s : image → σ → image) (region : σ → ℕ → Prop)
    (im : image) (F : ℕ → ℚ)
    (Hdims : ∀ b a, dimsEq (s b a) b) :
    ∀ l : List σ,
      (∀ b a, a ∈ l → dimsEq b im → ∀ m, ¬ region a m →
        (s b a).data.getD m 0 = b.data.getD m 0) →
      (∀ b a, a ∈ l → dimsEq b im →
        (∀ m, region a m → b.data.getD m 0 = im.data.getD m 0) →
        ∀ m, region a m → (s b a).data.getD m 0 = F m) →
      l.Pairwise (fun a b => ∀ m, region a m → region b m → False) →
      ∀ acc : image, dimsEq acc im →
      (∀ a ∈ l, ∀ m, region a m → acc.data.getD m 0 = im.data.getD m 0) →
      ∀ a ∈ l, ∀ m, region a m → (l.foldl s acc).data.getD m 0 = F m := by
  intro l
  induction l with
  | nil => intro _ _ _ acc _ _ a ha; exact absurd ha (List.not_mem_nil a)
  | cons a t ih =>
      intro Hframe Heffect hpw acc hdims hagree b hb m hm
      obtain ⟨hpwhead, hpwtail⟩ := List.pairwise_cons.mp hpw
      have hdims1 : dimsEq (s acc a) im := dimsEq_trans (Hdims acc a) hdims
      rw [List.foldl_cons]
      rcases List.mem_cons.mp hb with rfl | hbt
      · have h1 : (s acc b).data.getD m 0 = F m :=
          Heffect acc b (List.mem_cons_self _ _) hdims
            (hagree b (List.mem_cons_self _ _)) m hm
        have h2 : ∀ x ∈ t, ¬ region x m := fun x hx hxm => hpwhead x hx m hm hxm
        rw [foldl_frame s region im Hdims t
          (fun b1 x hx hb1 => Hframe b1 x (List.mem_cons_of_mem _ hx) hb1)
          (s acc b) hdims1 m h2, h1]
      · refine ih (fun b1 x hx hb1 => Hframe b1 x (List.mem_cons_of_mem _ hx) hb1)
          (fun b1 x hx hb1 => Heffect b1 x (List.mem_cons_of_mem _ hx) hb1)
          hpwtail (s acc a) hdims1 ?_ b hbt m hm
        intro x hx m1 hm1
        have hnot : ¬ region a m1 := fun ha1 => hpwhead x hx m1 ha1 hm1
        rw [Hframe acc a (List.mem_cons_self _ _) hdims m1 hnot]
        exact hagree x (List.mem_cons_of_mem _ hx) m1 hm1

lemma pairwise_range (R : ℕ → ℕ → Prop) :
    ∀ n : ℕ, (∀ a b, a < b → b < n → R a b) → (List.range n).Pairwise R := by
  intro n
  induction n with
  | zero => intro _; simp
  | succ k ih =>
      intro hR
      rw [List.range_succ]
      refine List.pairwise_append.mpr
        ⟨ih (fun a b hab hb => hR a b hab (Nat.lt_succ_of_lt hb)), by simp, ?_⟩
      intro a ha b hb
      rw [List.mem_range] at ha
      rw [List.mem_singleton] at hb
      rw [hb]
      exact hR a k ha (Nat.lt_succ_self k)

lemma foldl2_dims (s : image → ℕ → ℕ → image) (n1 n2 : ℕ)
    (Hdims : ∀ b i j, dimsEq (s b i j) b) (acc : image) :
    dimsEq ((List.range n1).foldl (fun a i =>
      (List.range n2).foldl (fun a2 j => s a2 i j) a) acc) acc :=
  foldl_dims _ (fun b a => foldl_dims _ (fun b1 j => Hdims b1 a j) _ b) _ acc

lemma foldl2_effect (s : image → ℕ → ℕ → image) (region : ℕ → ℕ → ℕ → Prop)
    (im : image) (F : ℕ → ℚ) (n1 n2 : ℕ)
    (Hdims : ∀ b i j, dimsEq (s b i j) b)
    (Hframe : ∀ b i j, i < n1 → j < n2 → dimsEq b im → ∀ m, ¬ region i j m →
      (s b i j).data.getD m 0 = b.data.getD m 0)
    (Heffect : ∀ b i j, i < n1 → j < n2 → dimsEq b im →
      (∀ m, region i j m → b.data.getD m 0 = im.data.getD m 0) →
      ∀ m, region i j m → (s b i j).data.getD m 0 = F m)
    (Hdisj : ∀ i j i1 j1, i < n1 → j < n2 → i1 < n1 → j1 < n2 → ¬(i = i1 ∧ j = j1) →
      ∀ m, region i j m → region i1 j1 m → False)
    (acc : image) (hadims : dimsEq acc im)
    (hagree : ∀ i j, i < n1 → j < n2 → ∀ m, region i j m →
      acc.data.getD m 0 = im.data.getD m 0) :
    ∀ i j, i < n1 → j < n2 → ∀ m, region i j m →
      ((List.range n1).foldl (fun a i =>
        (List.range n2).foldl (fun a2 j => s a2 i j) a) acc).data.getD m 0 = F m := by
  intro i j hi hj m hm
  have Hpw_in : ∀ a, a < n1 → (List.range n2).Pairwise
      (fun j1 j2 => ∀ m1, region a j1 m1 → region a j2 m1 → False) := by
    intro a ha
    exact pairwise_range _ n2 (fun x y hxy hy m1 hmx hmy =>
      Hdisj a x a y ha (lt_trans hxy hy) ha hy (by omega) m1 hmx hmy)
  have Hpw_out : (List.range n1).Pairwise (fun a b => ∀ m1,
      (∃ j1, j1 < n2 ∧ region a j1 m1) → (∃ j1, j1 < n2 ∧ region b j1 m1) → False) := by
    refine pairwise_range _ n1 (fun a b hab hb m1 hma hmb => ?_)
    obtain ⟨j1, hj1, hr1⟩ := hma
    obtain ⟨j2, hj2, hr2⟩ := hmb
    exact Hdisj a j1 b j2 (lt_trans hab hb) hj1 hb hj2 (by omega) m1 hr1 hr2
  exact foldl_effect (fun a i1 => (List.range n2).foldl (fun a2 j1 => s a2 i1 j1) a)
    (fun i1 m1 => ∃ j1, j1 < n2 ∧ region i1 j1 m1) im F
    (fun b a => foldl_dims _ (fun b1 j1 => Hdims b1 a j1) _ b)
    (List.range n1)
    (fun b a ham hb m1 hnot =>
      foldl_frame (fun a2 j1 => s a2 a j1) (fun j1 m1 => region a j1 m1) im
        (fun b1 j1 => Hdims b1 a j1) (List.range n2)
        (fun b1 j1 hjm hb1 m2 hnot2 =>
          Hframe b1 a j1 (List.mem_range.mp ham) (List.mem_range.mp hjm) hb1 m2 hnot2)
        b hb m1 (fun j1 hjm hm1 => hnot ⟨j1, List.mem_range.mp hjm, hm1⟩))
    (fun b a ham hb hag m1 hm1 => by
      obtain ⟨j1, hj1, hm2⟩ := hm1
      exact foldl_effect (fun a2 j2 => s a2 a j2) (fun j2 m2 => region a j2 m2) im F
        (fun b1 j2 => Hdims b1 a j2) (List.range n2)
        (fun b1 j2 hjm hb1 m2 hnot2 =>
          Hframe b1 a j2 (List.mem_range.mp ham) (List.mem_range.mp hjm) hb1 m2 hnot2)
        (fun b1 j2 hjm hb1 hag1 m2 hm3 =>
          Heffect b1 a j2 (List.mem_range.mp ham) (List.mem_range.mp hjm) hb1 hag1 m2 hm3)
        (Hpw_in a (List.mem_range.mp ham)) b hb
        (fun j2 hjm m2 hm3 => hag m2 ⟨j2, List.mem_range.mp hjm, hm3⟩)
        j1 (List.mem_range.mpr hj1) m1 hm2)
    Hpw_out acc hadims
    (fun a ham m1 hm1 => by
      obtain ⟨j1, hj1, hm2⟩ := hm1
      exact hagree a j1 (List.mem_range.mp ham) hj1 m1 hm2)
    i (List.mem_range.mpr hi) m ⟨j, hj, hm⟩

lemma foldl3_dims (s : image → ℕ → ℕ → ℕ → image) (n1 n2 n3 : ℕ)
    (Hdims : ∀ b i j k, dimsEq (s b i j k) b) (acc : image) :
    dimsEq ((List.range n1).foldl (fun a i =>
      (List.range n2).foldl (fun a2 j =>
        (List.range n3).foldl (fun a3 k => s a3 i j k) a2) a) acc) acc :=
  foldl_dims _ (fun b a => foldl2_dims _ n2 n3 (fun b1 j k => Hdims b1 a j k) b) _ acc

lemma foldl3_effect (s : image → ℕ → ℕ → ℕ → image) (region : ℕ → ℕ → ℕ → ℕ → Prop)
    (im : image) (F : ℕ → ℚ) (n1 n2 n3 : ℕ)
    (Hdims : ∀ b i j k, dimsEq (s b i j k) b)
    (Hframe : ∀ b i j k, i < n1 → j < n2 → k < n3 → dimsEq b im → ∀ m, ¬ region i j k m →
      (s b i j k).data.getD m 0 = b.data.getD m 0)
    (Heffect : ∀ b i j k, i < n1 → j < n2 → k < n3 → dimsEq b im →
      (∀ m, region i j k m → b.data.getD m 0 = im.data.getD m 0) →
      ∀ m, region i j k m → (s b i j k).data.getD m 0 = F m)
    (Hdisj : ∀ i j k i1 j1 k1, i < n1 → j < n2 → k < n3 → i1 < n1 → j1 < n2 → k1 < n3 →
      ¬(i = i1 ∧ j = j1 ∧ k = k1) → ∀ m, region i j k m → region i1 j1 k1 m → False)
    (acc : image) (hadims : dimsEq acc im)
    (hagree : ∀ i j k, i < n1 → j < n2 → k < n3 → ∀ m, region i j k m →
      acc.data.getD m 0 = im.data.getD m 0) :
    ∀ i j k, i < n1 → j < n2 → k < n3 → ∀ m, region i j k m →
      ((List.range n1).foldl (fun a i =>
        (List.range n2).foldl (fun a2 j =>
          (List.range n3).foldl (fun a3 k => s a3 i j k) a2) a) acc).data.getD m 0 = F m := by
  intro i j k hi hj hk m hm
  refine foldl2_effect (fun a2 i1 j1 => (List.range n3).foldl (fun a3 k1 => s a3 i1 j1 k1) a2)
    (fun i1 j1 m1 => ∃ k1, k1 < n3 ∧ region i1 j1 k1 m1) im F n1 n2
    (fun b i1 j1 => foldl_dims _ (fun b1 k1 => Hdims b1 i1 j1 k1) _ b)
    ?_ ?_ ?_ acc hadims ?_ i j hi hj m ⟨k, hk, hm⟩
  · intro b i1 j1 hi1 hj1 hb m1 hnot
    exact foldl_frame (fun a3 k1 => s a3 i1 j1 k1) (fun k1 m2 => region i1 j1 k1 m2) im
      (fun b1 k1 => Hdims b1 i1 j1 k1) (List.range n3)
      (fun b1 k1 hkm hb1 m2 hnot2 =>
        Hframe b1 i1 j1 k1 hi1 hj1 (List.mem_range.mp hkm) hb1 m2 hnot2)
      b hb m1 (fun k1 hkm hm1 => hnot ⟨k1, List.mem_range.mp hkm, hm1⟩)
  · intro b i1 j1 hi1 hj1 hb hag m1 hm1
    obtain ⟨k1, hk1, hm2⟩ := hm1
    have Hpw : (List.range n3).Pairwise
        (fun x y => ∀ m2, region i1 j1 x m2 → region i1 j1 y m2 → False) :=
      pairwise_range _ n3 (fun x y hxy hy m2 hmx hmy =>
        Hdisj i1 j1 x i1 j1 y hi1 hj1 (lt_trans hxy hy) hi1 hj1 hy (by omega) m2 hmx hmy)
    exact foldl_effect (fun a3 k2 => s a3 i1 j1 k2) (fun k2 m2 => region i1 j1 k2 m2) im F
      (fun b1 k2 => Hdims b1 i1 j1 k2) (List.range n3)
      (fun b1 k2 hkm hb1 m2 hnot2 =>
        Hframe b1 i1 j1 k2 hi1 hj1 (List.mem_range.mp hkm) hb1 m2 hnot2)
      (fun b1 k2 hkm hb1 hag1 m2 hm3 =>
        Heffect b1 i1 j1 k2 hi1 hj1 (List.mem_range.mp hkm) hb1 hag1 m2 hm3)
      Hpw b hb
      (fun k2 hkm m2 hm3 => hag m2 ⟨k2, List.mem_range.mp hkm, hm3⟩)
      k1 (List.mem_range.mpr hk1) m1 hm2
  · intro i1 j1 i2 j2 hi1 hj1 hi2 hj2 hne m1 hm1 hm2
    obtain ⟨k1, hk1, hr1⟩ := hm1
    obtain ⟨k2, hk2, hr2⟩ := hm2
    exact Hdisj i1 j1 k1 i2 j2 k2 hi1 hj1 hk1 hi2 hj2 hk2 (by tauto) m1 hr1 hr2
  · intro i1 j1 hi1 hj1 m1 hm1
    obtain ⟨k1, hk1, hm2⟩ := hm1
    exact hagree i1 j1 k1 hi1 hj1 hk1 m1 hm2

lemma foldl_const {α β : Type} (f : β → α → β) :
    ∀ l : List α, (∀ b a, a ∈ l → f b a = b) → ∀ init : β, l.foldl f init = init := by
  intro l
  induction l with
  | nil => intro _ init; rfl
  | cons a t ih =>
      intro h init
      rw [List.foldl_cons, h init a (List.mem_cons_self _ _)]
      exact ih (fun b x hx => h b x (List.mem_cons_of_mem _ hx)) init

lemma foldl_inv {α β : Type} (f : β → α → β) (P : β → Prop) :
    ∀ l : List α, (∀ b a, a ∈ l → P b → f b a = b) → ∀ init : β, P init →
      l.foldl f init = init := by
  intro l
  induction l with
  | nil => intro _ init _; rfl
  | cons a t ih =>
      intro h init hP
      rw [List.foldl_cons, h init a (List.mem_cons_self _ _) hP]
      exact ih (fun b x hx hb => h b x (List.mem_cons_of_mem _ hx) hb) init hP

lemma idx_congr {a b : image} (hw : a.w = b.w) (hh : a.h = b.h) (x y ch : ℕ) :
    idx a x y ch = idx b x y ch := by
  unfold idx
  rw [hw, hh]

lemma make_image_len (w h c : ℕ) : (make_image w h c).data.length = w * h * c := by
  simp [make_image]

lemma set_pixel_getD_ne (b : image) {x y ch : ℕ} (hx : x < b.w) (hy : y < b.h)
    (hch : ch < b.c) (v : ℚ) {m : ℕ} (hne : idx b x y ch ≠ m) :
    (set_pixel b (x : ℤ) (y : ℤ) (ch : ℤ) v).data.getD m 0 = b.data.getD m 0 := by
  rw [set_pixel_valid b hx hy hch]
  exact getD_set_ne _ _ hne

lemma set_pixel_getD_self (b : image) {x y ch : ℕ} (hx : x < b.w) (hy : y < b.h)
    (hch : ch < b.c) (v : ℚ) (hlen : b.data.length = b.w * b.h * b.c) :
    (set_pixel b (x : ℤ) (y : ℤ) (ch : ℤ) v).data.getD (idx b x y ch) 0 = v := by
  rw [set_pixel_valid b hx hy hch]
  exact getD_set_self _ _ _ (by rw [hlen]; exact idx_lt b hx hy hch)

lemma roundC_natCast (n : ℕ) : roundC ((n : ℕ) : ℚ) = (n : ℤ) := by
  unfold roundC
  rw [if_neg (not_lt.mpr (by positivity : (0 : ℚ) ≤ (n : ℚ)))]
  rw [Int.floor_eq_iff]
  constructor
  · push_cast
    linarith
  · push_cast
    linarith

lemma set_index_channel_high (b : image) (x y c : ℤ) (hc : c > (b.c : ℤ)) :
    set_index b x y c = none := by
  unfold set_index
  by_cases h1 : x > (b.w : ℤ)
  · rw [if_pos h1]
  · rw [if_neg h1]
    by_cases h2 : y > (b.h : ℤ)
    · rw [if_pos h2]
    · rw [if_neg h2, if_pos hc]

lemma set_pixel_channel_high (b : image) (x y c : ℤ) (v : ℚ) (hc : c > (b.c : ℤ)) :
    set_pixel b x y c v = b := by
  unfold set_pixel
  rw [set_index_channel_high b x y c hc]

lemma set_pixel_of_some {im : image} {x y c : ℤ} {k : ℤ}
    (h : set_index im x y c = some k) (v : ℚ) :
    set_pixel im x y c v = { im with data := im.data.set k.toNat v } := by
  unfold set_pixel
  rw [h]

lemma set_pixel_at_w (im : image) (y ch : ℕ) (v : ℚ) (hy : y < im.h) (hch : ch < im.c) :
    set_pixel im (im.w : ℤ) (y : ℤ) (ch : ℤ) v =
      { im with data := im.data.set (idx im 0 (y + 1) ch) v } := by
  have hsome : set_index im (im.w : ℤ) (y : ℤ) (ch : ℤ) =
      some ((im.w : ℤ) + (y : ℤ) * (im.w : ℤ) + (im.w : ℤ) * (im.h : ℤ) * (ch : ℤ)) := by
    unfold set_index
    rw [if_neg (by omega), if_neg (by omega), if_neg (by omega),
        if_neg (by omega), if_neg (by omega), if_neg (by omega)]
  have he : ((im.w : ℤ) + (y : ℤ) * (im.w : ℤ) + (im.w : ℤ) * (im.h : ℤ) * (ch : ℤ)).toNat
      = idx im 0 (y + 1) ch := by
    have h2 : ((im.w : ℤ) + (y : ℤ) * (im.w : ℤ) + (im.w : ℤ) * (im.h : ℤ) * (ch : ℤ))
        = ((idx im 0 (y + 1) ch : ℕ) : ℤ) := by
      unfold idx
      push_cast
      ring
    rw [h2, Int.toNat_natCast]
  rw [set_pixel_of_some hsome v, he]

lemma bilinear_intCast_zero (im : image) (xi yi c : ℤ) :
    bilinear_interpolate im (xi : ℚ) (yi : ℚ) c = 0 := by
  unfold bilinear_interpolate
  simp only [Int.floor_intCast, Int.ceil_intCast]
  ring

lemma copy_image_eq (im : image) : copy_image im = im := rfl

lemma fill3_spec (g : ℕ → ℕ → ℕ → ℚ) (w h c : ℕ) :
    dimsEq ((List.range h).foldl (fun a (row : ℕ) => (List.range w).foldl (fun a2 (col : ℕ) =>
        (List.range c).foldl (fun a3 (z : ℕ) =>
          set_pixel a3 (col : ℤ) (row : ℤ) (z : ℤ) (g row col z)) a2) a)
        (make_image w h c)) (make_image w h c) ∧
    ∀ col row z, col < w → row < h → z < c →
      ((List.range h).foldl (fun a (row : ℕ) => (List.range w).foldl (fun a2 (col : ℕ) =>
        (List.range c).foldl (fun a3 (z : ℕ) =>
          set_pixel a3 (col : ℤ) (row : ℤ) (z : ℤ) (g row col z)) a2) a)
        (make_image w h c)).data.getD (col + row * w + w * h * z) 0 = g row col z := by
  constructor
  · exact foldl3_dims _ h w c (fun b r c1 z1 => set_pixel_dims b _ _ _ _) _
  · intro col row z hcol hrow hz
    have hF : (fun m => g ((m / w) % h) (m % w) (m / (w * h))) (col + row * w + w * h * z)
        = g row col z := by
      have d1 : (col + row * w + w * h * z) % w = col :=
        (@idx_decomp (make_image w h c) col row z hcol hrow).1
      have d2 : ((col + row * w + w * h * z) / w) % h = row :=
        (@idx_decomp (make_image w h c) col row z hcol hrow).2.1
      have d3 : (col + row * w + w * h * z) / (w * h) = z :=
        (@idx_decomp (make_image w h c) col row z hcol hrow).2.2
      show g (((col + row * w + w * h * z) / w) % h) ((col + row * w + w * h * z) % w)
        ((col + row * w + w * h * z) / (w * h)) = g row col z
      rw [d1, d2, d3]
    refine Eq.trans ?_ hF
    refine foldl3_effect
      (fun b r c1 z1 => set_pixel b (c1 : ℤ) (r : ℤ) (z1 : ℤ) (g r c1 z1))
      (fun r c1 z1 m => m = c1 + r * w + w * h * z1)
      (make_image w h c)
      (fun m => g ((m / w) % h) (m % w) (m / (w * h)))
      h w c
      (fun b r c1 z1 => set_pixel_dims b _ _ _ _)
      ?_ ?_ ?_
      (make_image w h c) (dimsEq_refl _) (fun _ _ _ _ _ _ _ _ => rfl)
      row col z hrow hcol hz (col + row * w + w * h * z) rfl
    · intro b r c1 z1 hr hc1 hz1 hb m hne
      obtain ⟨hbw, hbh, hbc, hblen⟩ := hb
      have hbw2 : b.w = w := hbw
      have hbh2 : b.h = h := hbh
      have hbc2 : b.c = c := hbc
      have hidx : idx b c1 r z1 = c1 + r * w + w * h * z1 := by
        unfold idx
        rw [hbw2, hbh2]
      exact set_pixel_getD_ne b (by omega) (by omega) (by omega) _
        (by rw [hidx]; exact fun hcon => hne hcon.symm)
    · intro b r c1 z1 hr hc1 hz1 hb hag m hm
      obtain ⟨hbw, hbh, hbc, hblen⟩ := hb
      have hbw2 : b.w = w := hbw
      have hbh2 : b.h = h := hbh
      have hbc2 : b.c = c := hbc
      have hblen2 : b.data.length = w * h * c := hblen.trans (make_image_len w h c)
      have hidx : idx b c1 r z1 = c1 + r * w + w * h * z1 := by
        unfold idx
        rw [hbw2, hbh2]
      have hblen3 : b.data.length = b.w * b.h * b.c := by rw [hbw2, hbh2, hbc2]; exact hblen2
      subst hm
      have e1 : (set_pixel b (c1 : ℤ) (r : ℤ) (z1 : ℤ) (g r c1 z1)).data.getD
          (c1 + r * w + w * h * z1) 0 = g r c1 z1 := by
        rw [← hidx]
        exact set_pixel_getD_self b (by omega) (by omega) (by omega) _ hblen3
      refine e1.trans ?_
      have d1 : (c1 + r * w + w * h * z1) % w = c1 :=
        (@idx_decomp (make_image w h c) c1 r z1 hc1 hr).1
      have d2 : ((c1 + r * w + w * h * z1) / w) % h = r :=
        (@idx_decomp (make_image w h c) c1 r z1 hc1 hr).2.1
      have d3 : (c1 + r * w + w * h * z1) / (w * h) = z1 :=
        (@idx_decomp (make_image w h c) c1 r z1 hc1 hr).2.2
      show g r c1 z1 = g (((c1 + r * w + w * h * z1) / w) % h)
        ((c1 + r * w + w * h * z1) % w) ((c1 + r * w + w * h * z1) / (w * h))
      rw [d1, d2, d3]
    · intro r c1 z1 r2 c2 z2 hr hc1 hz1 hr2 hc2 hz2 hne m hm1 hm2
      have he : idx (make_image w h c) c1 r z1 = idx (make_image w h c) c2 r2 z2 :=
        hm1.symm.trans hm2
      obtain ⟨e1, e2, e3⟩ := @idx_inj (make_image w h c) c1 r z1 c2 r2 z2 hc1 hr hc2 hr2 he
      exact hne ⟨e2, e1, e3⟩

lemma fill2_spec (g : ℕ → ℕ → ℚ) (w h : ℕ) :
    dimsEq ((List.range w).foldl (fun a (i : ℕ) => (List.range h).foldl (fun a2 (j : ℕ) =>
        set_pixel a2 (i : ℤ) (j : ℤ) ((0 : ℕ) : ℤ) (g i j)) a)
        (make_image w h 1)) (make_image w h 1) ∧
    ∀ i j, i < w → j < h →
      ((List.range w).foldl (fun a (i : ℕ) => (List.range h).foldl (fun a2 (j : ℕ) =>
        set_pixel a2 (i : ℤ) (j : ℤ) ((0 : ℕ) : ℤ) (g i j)) a)
        (make_image w h 1)).data.getD (i + j * w) 0 = g i j := by
  constructor
  · exact foldl2_dims _ w h (fun b i j => set_pixel_dims b _ _ _ _) _
  · intro i j hi hj
    have hF : (fun m => g (m % w) ((m / w) % h)) (i + j * w) = g i j := by
      have d1 : (i + j * w) % w = i :=
        (@idx_decomp (make_image w h 1) i j 0 hi hj).1
      have d2 : ((i + j * w) / w) % h = j :=
        (@idx_decomp (make_image w h 1) i j 0 hi hj).2.1
      show g ((i + j * w) % w) (((i + j * w) / w) % h) = g i j
      rw [d1, d2]
    refine Eq.trans ?_ hF
    refine foldl2_effect
      (fun b i1 j1 => set_pixel b (i1 : ℤ) (j1 : ℤ) ((0 : ℕ) : ℤ) (g i1 j1))
      (fun i1 j1 m => m = i1 + j1 * w)
      (make_image w h 1)
      (fun m => g (m % w) ((m / w) % h))
      w h
      (fun b i1 j1 => set_pixel_dims b _ _ _ _)
      ?_ ?_ ?_
      (make_image w h 1) (dimsEq_refl _) (fun _ _ _ _ _ _ => rfl)
      i j hi hj (i + j * w) rfl
    · intro b i1 j1 hi1 hj1 hb m hne
      obtain ⟨hbw, hbh, hbc, hblen⟩ := hb
      have hbw2 : b.w = w := hbw
      have hbh2 : b.h = h := hbh
      have hbc2 : b.c = 1 := hbc
      have hidx : idx b i1 j1 0 = i1 + j1 * w := by
        unfold idx
        rw [hbw2, hbh2]
        omega
      exact set_pixel_getD_ne b (by omega) (by omega) (by omega) _
        (by rw [hidx]; exact fun hcon => hne hcon.symm)
    · intro b i1 j1 hi1 hj1 hb hag m hm
      obtain ⟨hbw, hbh, hbc, hblen⟩ := hb
      have hbw2 : b.w = w := hbw
      have hbh2 : b.h = h := hbh
      have hbc2 : b.c = 1 := hbc
      have hblen2 : b.data.length = w * h * 1 := hblen.trans (make_image_len w h 1)
      have hblen3 : b.data.length = b.w * b.h * b.c := by rw [hbw2, hbh2, hbc2]; exact hblen2
      have hidx : idx b i1 j1 0 = i1 + j1 * w := by
        unfold idx
        rw [hbw2, hbh2]
        omega
      subst hm
      have e1 : (set_pixel b (i1 : ℤ) (j1 : ℤ) ((0 : ℕ) : ℤ) (g i1 j1)).data.getD (i1 + j1 * w) 0
          = g i1 j1 := by
        rw [← hidx]
        exact set_pixel_getD_self b (by omega) (by omega) (by omega) _ hblen3
      refine e1.trans ?_
      have d1 : (i1 + j1 * w) % w = i1 :=
        (@idx_decomp (make_image w h 1) i1 j1 0 hi1 hj1).1
      have d2 : ((i1 + j1 * w) / w) % h = j1 :=
        (@idx_decomp (make_image w h 1) i1 j1 0 hi1 hj1).2.1
      show g i1 j1 = g ((i1 + j1 * w) % w) (((i1 + j1 * w) / w) % h)
      rw [d1, d2]
    · intro i1 j1 i2 j2 hi1 hj1 hi2 hj2 hne m hm1 hm2
      have he : idx (make_image w h 1) i1 j1 0 = idx (make_image w h 1) i2 j2 0 :=
        hm1.symm.trans hm2
      obtain ⟨e1, e2, e3⟩ := @idx_inj (make_image w h 1) i1 j1 0 i2 j2 0 hi1 hj1 hi2 hj2 he
      exact hne ⟨e1, e2⟩

lemma nn_resize_spec (im : image) (w h : ℕ) :
    dimsEq (nn_resize im w h) (make_image w h im.c) ∧
    ∀ col row z, col < w → row < h → z < im.c →
      (nn_resize im w h).data.getD (col + row * w + w * h * z) 0 =
        nn_interpolate im
          ((im.w : ℚ) / (w : ℚ) * (col : ℚ) + (-(1/2) + (1/2) * ((im.w : ℚ) / (w : ℚ))))
          ((im.h : ℚ) / (h : ℚ) * (row : ℚ) + (-(1/2) + (1/2) * ((im.h : ℚ) / (h : ℚ))))
          (z : ℤ) :=
  fill3_spec (fun row col z => nn_interpolate im
    ((im.w : ℚ) / (w : ℚ) * (col : ℚ) + (-(1/2) + (1/2) * ((im.w : ℚ) / (w : ℚ))))
    ((im.h : ℚ) / (h : ℚ) * (row : ℚ) + (-(1/2) + (1/2) * ((im.h : ℚ) / (h : ℚ))))
    (z : ℤ)) w h im.c

lemma bilinear_resize_spec (im : image) (w h : ℕ) :
    dimsEq (bilinear_resize im w h) (make_image w h im.c) ∧
    ∀ col row z, col < w → row < h → z < im.c →
      (bilinear_resize im w h).data.getD (col + row * w + w * h * z) 0 =
        bilinear_interpolate im
          ((im.w : ℚ) / (w : ℚ) * (col : ℚ) + (-(1/2) + (1/2) * ((im.w : ℚ) / (w : ℚ))))
          ((im.h : ℚ) / (h : ℚ) * (row : ℚ) + (-(1/2) + (1/2) * ((im.h : ℚ) / (h : ℚ))))
          (z : ℤ) :=
  fill3_spec (fun row col z => bilinear_interpolate im
    ((im.w : ℚ) / (w : ℚ) * (col : ℚ) + (-(1/2) + (1/2) * ((im.w : ℚ) / (w : ℚ))))
    ((im.h : ℚ) / (h : ℚ) * (row : ℚ) + (-(1/2) + (1/2) * ((im.h : ℚ) / (h : ℚ))))
    (z : ℤ)) w h im.c

lemma nn_resize_identity (im : image) (hlen : im.data.length = im.w * im.h * im.c) :
    nn_resize im im.w im.h = im := by
  obtain ⟨⟨hw, hh, hc, hlenf⟩, hsamp⟩ := nn_resize_spec im im.w im.h
  have hlen2 : (nn_resize im im.w im.h).data.length = im.w * im.h * im.c :=
    hlenf.trans (make_image_len im.w im.h im.c)
  have hdata : (nn_resize im im.w im.h).data = im.data := by
    apply List.ext_getElem (by rw [hlen2, hlen])
    intro m hm1 hm2
    have hm3 : m < im.w * im.h * im.c := by rw [← hlen]; exact hm2
    obtain ⟨x, y, ch, hx, hy, hch, hidxm⟩ := idx_decode im hm3
    rw [← List.getD_eq_getElem _ 0 hm1, ← List.getD_eq_getElem _ 0 hm2]
    subst hidxm
    have e := hsamp x y ch hx hy hch
    have hw0 : ((im.w : ℚ)) ≠ 0 := Nat.cast_ne_zero.mpr (by omega)
    have hh0 : ((im.h : ℚ)) ≠ 0 := Nat.cast_ne_zero.mpr (by omega)
    have hXc : (im.w : ℚ) / (im.w : ℚ) * (x : ℚ) +
        (-(1/2) + (1/2) * ((im.w : ℚ) / (im.w : ℚ))) = ((x : ℕ) : ℚ) := by
      rw [div_self hw0]
      ring
    have hYc : (im.h : ℚ) / (im.h : ℚ) * (y : ℚ) +
        (-(1/2) + (1/2) * ((im.h : ℚ) / (im.h : ℚ))) = ((y : ℕ) : ℚ) := by
      rw [div_self hh0]
      ring
    rw [hXc, hYc] at e
    unfold nn_interpolate at e
    rw [roundC_natCast x, roundC_natCast y, get_pixel_valid im hx hy hch] at e
    exact e
  exact image.ext hw hh hc hdata

lemma bilinear_resize_1x1 : (bilinear_resize img1x1 1 1).data = [0] := by
  obtain ⟨⟨hw, hh, hc, hlenf⟩, hsamp⟩ := bilinear_resize_spec img1x1 1 1
  have hlen2 : (bilinear_resize img1x1 1 1).data.length = 1 := by
    rw [hlenf, make_image_len]
    rfl
  apply List.ext_getElem (by rw [hlen2]; rfl)
  intro m hm1 hm2
  have hm0 : m = 0 := by
    rw [hlen2] at hm1
    omega
  subst hm0
  rw [← List.getD_eq_getElem _ 0 hm1, ← List.getD_eq_getElem _ 0 hm2]
  have e := hsamp 0 0 0 (by decide) (by decide) (by decide)
  have hX : (img1x1.w : ℚ) / ((1 : ℕ) : ℚ) * ((0 : ℕ) : ℚ) +
      (-(1/2) + (1/2) * ((img1x1.w : ℚ) / ((1 : ℕ) : ℚ))) = ((0 : ℤ) : ℚ) := by
    norm_num [img1x1]
  have hY : (img1x1.h : ℚ) / ((1 : ℕ) : ℚ) * ((0 : ℕ) : ℚ) +
      (-(1/2) + (1/2) * ((img1x1.h : ℚ) / ((1 : ℕ) : ℚ))) = ((0 : ℤ) : ℚ) := by
    norm_num [img1x1]
  rw [hX, hY, bilinear_intCast_zero img1x1 0 0 ((0 : ℕ) : ℤ)] at e
  have hidx0 : (0 : ℕ) + 0 * 1 + 1 * 1 * 0 = 0 := by norm_num
  rw [hidx0] at e
  rw [e]
  rfl

lemma clamp_step_dims (b : image) (i j ch : ℤ) : dimsEq (clamp_step b i j ch) b := by
  unfold clamp_step
  by_cases h1 : get_pixel b i j ch > 1
  · rw [if_pos h1]
    by_cases h2 : get_pixel (set_pixel b i j ch 1) i j ch < 0
    · rw [if_pos h2]
      exact dimsEq_trans (set_pixel_dims _ _ _ _ _) (set_pixel_dims _ _ _ _ _)
    · rw [if_neg h2]
      exact set_pixel_dims _ _ _ _ _
  · rw [if_neg h1]
    by_cases h2 : get_pixel b i j ch < 0
    · rw [if_pos h2]
      exact set_pixel_dims _ _ _ _ _
    · rw [if_neg h2]
      exact dimsEq_refl _

lemma clamp_step_frame (b : image) {i j ch : ℕ} (hi : i < b.w) (hj : j < b.h)
    (hch : ch < b.c) {m : ℕ} (hne : idx b i j ch ≠ m) :
    (clamp_step b (i : ℤ) (j : ℤ) (ch : ℤ)).data.getD m 0 = b.data.getD m 0 := by
  have step1 : ∀ E : image, E.w = b.w → E.h = b.h → E.c = b.c →
      E.data.getD m 0 = b.data.getD m 0 →
      (if get_pixel E (i : ℤ) (j : ℤ) (ch : ℤ) < 0 then
        set_pixel E (i : ℤ) (j : ℤ) (ch : ℤ) 0 else E).data.getD m 0 = b.data.getD m 0 := by
    intro E hw hh hc hE
    split_ifs with h2
    · rw [set_pixel_getD_ne E (by omega) (by omega) (by omega) 0
        (by rw [idx_congr hw hh]; exact hne)]
      exact hE
    · exact hE
  unfold clamp_step
  by_cases h1 : get_pixel b (i : ℤ) (j : ℤ) (ch : ℤ) > 1
  · rw [if_pos h1]
    have hd := set_pixel_dims b (i : ℤ) (j : ℤ) (ch : ℤ) (1 : ℚ)
    exact step1 _ hd.1 hd.2.1 hd.2.2.1 (set_pixel_getD_ne b hi hj hch 1 hne)
  · rw [if_neg h1]
    exact step1 b rfl rfl rfl rfl

lemma clamp_step_effect (b : image) {i j ch : ℕ} (hi : i < b.w) (hj : j < b.h)
    (hch : ch < b.c) (hlen : b.data.length = b.w * b.h * b.c) :
    (clamp_step b (i : ℤ) (j : ℤ) (ch : ℤ)).data.getD (idx b i j ch) 0 =
      clampQ (b.data.getD (idx b i j ch) 0) := by
  have hgp : get_pixel b (i : ℤ) (j : ℤ) (ch : ℤ) = b.data.getD (idx b i j ch) 0 :=
    get_pixel_valid b hi hj hch
  unfold clamp_step clampQ
  by_cases h1 : get_pixel b (i : ℤ) (j : ℤ) (ch : ℤ) > 1
  · rw [if_pos h1]
    obtain ⟨hdw, hdh, hdc, hdlen⟩ := set_pixel_dims b (i : ℤ) (j : ℤ) (ch : ℤ) (1 : ℚ)
    have hset1 : (set_pixel b (i : ℤ) (j : ℤ) (ch : ℤ) 1).data.getD (idx b i j ch) 0 = 1 :=
      set_pixel_getD_self b hi hj hch 1 hlen
    have hgp1 : get_pixel (set_pixel b (i : ℤ) (j : ℤ) (ch : ℤ) 1)
        (i : ℤ) (j : ℤ) (ch : ℤ) = 1 := by
      rw [get_pixel_valid _ (by omega) (by omega) (by omega)]
      show (set_pixel b (i : ℤ) (j : ℤ) (ch : ℤ) 1).data.getD
        (idx (set_pixel b (i : ℤ) (j : ℤ) (ch : ℤ) 1) i j ch) 0 = 1
      rw [idx_congr hdw hdh]
      exact hset1
    rw [if_neg (by rw [hgp1]; norm_num), hset1, if_pos (by rw [← hgp]; exact h1)]
  · rw [if_neg h1]
    by_cases h2 : get_pixel b (i : ℤ) (j : ℤ) (ch : ℤ) < 0
    · rw [if_pos h2]
      have hset0 : (set_pixel b (i : ℤ) (j : ℤ) (ch : ℤ) 0).data.getD (idx b i j ch) 0 = 0 :=
        set_pixel_getD_self b hi hj hch 0 hlen
      rw [hset0, if_neg (by rw [← hgp]; exact h1), if_pos (by rw [← hgp]; exact h2)]
    · rw [if_neg h2, if_neg (by rw [← hgp]; exact h1), if_neg (by rw [← hgp]; exact h2)]

lemma clamp_image_spec (im : image) (hlen : im.data.length = im.w * im.h * im.c) :
    dimsEq (clamp_image im) im ∧
    ∀ x y ch, x < im.w → y < im.h → ch < im.c →
      sample (clamp_image im) x y ch = clampQ (sample im x y ch) := by
  have hdims : dimsEq (clamp_image im) im :=
    foldl3_dims (fun b i j k => clamp_step b (i : ℤ) (j : ℤ) (k : ℤ)) im.w im.h im.c
      (fun b i j k => clamp_step_dims b _ _ _) im
  refine ⟨hdims, ?_⟩
  intro x y ch hx hy hch
  have key : (clamp_image im).data.getD (idx im x y ch) 0 =
      clampQ (im.data.getD (idx im x y ch) 0) := by
    refine foldl3_effect (fun b i j k => clamp_step b (i : ℤ) (j : ℤ) (k : ℤ))
      (fun i j k m => m = idx im i j k) im
      (fun m => clampQ (im.data.getD m 0)) im.w im.h im.c
      (fun b i j k => clamp_step_dims b _ _ _) ?_ ?_ ?_ im (dimsEq_refl _)
      (fun _ _ _ _ _ _ _ _ => rfl) x y ch hx hy hch (idx im x y ch) rfl
    · intro b i j k hi2 hj2 hk2 hb m hne
      obtain ⟨hbw, hbh, hbc, hblen⟩ := hb
      exact clamp_step_frame b (by omega) (by omega) (by omega)
        (by rw [idx_congr hbw hbh]; exact fun hcon => hne hcon.symm)
    · intro b i j k hi2 hj2 hk2 hb hag m hm
      obtain ⟨hbw, hbh, hbc, hblen⟩ := hb
      subst hm
      have hib : i < b.w := by omega
      have hjb : j < b.h := by omega
      have hkb : k < b.c := by omega
      have hblen2 : b.data.length = b.w * b.h * b.c := by
        rw [hblen, hlen, hbw, hbh, hbc]
      have e1 := clamp_step_effect b hib hjb hkb hblen2
      rw [idx_congr hbw hbh i j k] at e1
      rw [e1, hag (idx im i j k) rfl]
    · intro i j k i2 j2 k2 hi2 hj2 hk2 hi3 hj3 hk3 hne m hm1 hm2
      obtain ⟨e1, e2, e3⟩ := idx_inj im hi2 hj2 hi3 hj3 (hm1.symm.trans hm2)
      exact hne ⟨e1, e2, e3⟩
  have i1 : idx (clamp_image im) x y ch = idx im x y ch :=
    idx_congr hdims.1 hdims.2.1 x y ch
  show (clamp_image im).data.getD (idx (clamp_image im) x y ch) 0 =
    clampQ (im.data.getD (idx im x y ch) 0)
  rw [i1]
  exact key

lemma clampQ_mem (v : ℚ) : 0 ≤ clampQ v ∧ clampQ v ≤ 1 := by
  unfold clampQ
  split_ifs <;> constructor <;> linarith

lemma clampQ_idem (v : ℚ) : clampQ (clampQ v) = clampQ v := by
  unfold clampQ
  split_ifs <;> linarith

lemma three_way_max_ge (a b c : ℚ) :
    a ≤ three_way_max a b c ∧ b ≤ three_way_max a b c ∧ c ≤ three_way_max a b c := by
  unfold three_way_max
  split_ifs <;> refine ⟨?_, ?_, ?_⟩ <;> linarith

lemma three_way_max_mem (a b c : ℚ) :
    three_way_max a b c = a ∨ three_way_max a b c = b ∨ three_way_max a b c = c := by
  unfold three_way_max
  split_ifs <;> tauto

lemma three_way_min_le (a b c : ℚ) :
    three_way_min a b c ≤ a ∧ three_way_min a b c ≤ b ∧ three_way_min a b c ≤ c := by
  unfold three_way_min
  split_ifs <;> refine ⟨?_, ?_, ?_⟩ <;> linarith

lemma three_way_min_mem (a b c : ℚ) :
    three_way_min a b c = a ∨ three_way_min a b c = b ∨ three_way_min a b c = c := by
  unfold three_way_min
  split_ifs <;> tauto

lemma tmin_eq_a {a b c : ℚ} (h1 : a ≤ b) (h2 : a ≤ c) : three_way_min a b c = a := by
  have hle := three_way_min_le a b c
  rcases three_way_min_mem a b c with h | h | h <;> linarith

lemma tmin_eq_b {a b c : ℚ} (h1 : b ≤ a) (h2 : b ≤ c) : three_way_min a b c = b := by
  have hle := three_way_min_le a b c
  rcases three_way_min_mem a b c with h | h | h <;> linarith

lemma tmin_eq_c {a b c : ℚ} (h1 : c ≤ a) (h2 : c ≤ b) : three_way_min a b c = c := by
  have hle := three_way_min_le a b c
  rcases three_way_min_mem a b c with h | h | h <;> linarith

lemma fmodQ_lt_two {x : ℚ} (h0 : 0 ≤ x) (h2 : x < 2) : fmodQ x 2 = x := by
  unfold fmodQ
  rw [if_pos (div_nonneg h0 (by norm_num))]
  have hf : ⌊x / 2⌋ = 0 :=
    Int.floor_eq_zero_iff.mpr ⟨div_nonneg h0 (by norm_num), by
      rw [div_lt_one (by norm_num : (0:ℚ) < 2)]
      exact h2⟩
  rw [hf]
  push_cast
  ring

lemma fmodQ_two_four {x : ℚ} (h0 : 2 ≤ x) (h2 : x < 4) : fmodQ x 2 = x - 2 := by
  unfold fmodQ
  rw [if_pos (div_nonneg (by linarith) (by norm_num))]
  have hf : ⌊x / 2⌋ = 1 := by
    rw [Int.floor_eq_iff]
    constructor
    · push_cast
      rw [le_div_iff (by norm_num : (0:ℚ) < 2)]
      linarith
    · push_cast
      rw [div_lt_iff (by norm_num : (0:ℚ) < 2)]
      linarith
  rw [hf]
  push_cast
  ring

lemma fmodQ_four_six {x : ℚ} (h0 : 4 ≤ x) (h2 : x < 6) : fmodQ x 2 = x - 4 := by
  unfold fmodQ
  rw [if_pos (div_nonneg (by linarith) (by norm_num))]
  have hf : ⌊x / 2⌋ = 2 := by
    rw [Int.floor_eq_iff]
    constructor
    · push_cast
      rw [le_div_iff (by norm_num : (0:ℚ) < 2)]
      linarith
    · push_cast
      rw [div_lt_iff (by norm_num : (0:ℚ) < 2)]
      linarith
  rw [hf]
  push_cast
  ring

lemma hsv_to_rgb_pixel_eq (hue sat value : ℚ) :
    hsv_to_rgb_pixel hue sat value =
      ((if 0 ≤ hue * 6 ∧ hue * 6 ≤ 1 then
          (value * sat, value * sat * (1 - |fmodQ (hue * 6) 2 - 1|), (0 : ℚ))
        else if 1 ≤ hue * 6 ∧ hue * 6 ≤ 2 then
          (value * sat * (1 - |fmodQ (hue * 6) 2 - 1|), value * sat, 0)
        else if 2 ≤ hue * 6 ∧ hue * 6 ≤ 3 then
          (0, value * sat, value * sat * (1 - |fmodQ (hue * 6) 2 - 1|))
        else if 3 ≤ hue * 6 ∧ hue * 6 ≤ 4 then
          (0, value * sat * (1 - |fmodQ (hue * 6) 2 - 1|), value * sat)
        else if 4 ≤ hue * 6 ∧ hue * 6 ≤ 5 then
          (value * sat * (1 - |fmodQ (hue * 6) 2 - 1|), 0, value * sat)
        else if 5 ≤ hue * 6 ∧ hue * 6 ≤ 6 then
          (value * sat, 0, value * sat * (1 - |fmodQ (hue * 6) 2 - 1|))
        else (0, 0, 0)).1 + (value - value * sat),
       (if 0 ≤ hue * 6 ∧ hue * 6 ≤ 1 then
          (value * sat, value * sat * (1 - |fmodQ (hue * 6) 2 - 1|), (0 : ℚ))
        else if 1 ≤ hue * 6 ∧ hue * 6 ≤ 2 then
          (value * sat * (1 - |fmodQ (hue * 6) 2 - 1|), value * sat, 0)
        else if 2 ≤ hue * 6 ∧ hue * 6 ≤ 3 then
          (0, value * sat, value * sat * (1 - |fmodQ (hue * 6) 2 - 1|))
        else if 3 ≤ hue * 6 ∧ hue * 6 ≤ 4 then
          (0, value * sat * (1 - |fmodQ (hue * 6) 2 - 1|), value * sat)
        else if 4 ≤ hue * 6 ∧ hue * 6 ≤ 5 then
          (value * sat * (1 - |fmodQ (hue * 6) 2 - 1|), 0, value * sat)
        else if 5 ≤ hue * 6 ∧ hue * 6 ≤ 6 then
          (value * sat, 0, value * sat * (1 - |fmodQ (hue * 6) 2 - 1|))
        else (0, 0, 0)).2.1 + (value - value * sat),
       (if 0 ≤ hue * 6 ∧ hue * 6 ≤ 1 then
          (value * sat, value * sat * (1 - |fmodQ (hue * 6) 2 - 1|), (0 : ℚ))
        else if 1 ≤ hue * 6 ∧ hue * 6 ≤ 2 then
          (value * sat * (1 - |fmodQ (hue * 6) 2 - 1|), value * sat, 0)
        else if 2 ≤ hue * 6 ∧ hue * 6 ≤ 3 then
          (0, value * sat, value * sat * (1 - |fmodQ (hue * 6) 2 - 1|))
        else if 3 ≤ hue * 6 ∧ hue * 6 ≤ 4 then
          (0, value * sat * (1 - |fmodQ (hue * 6) 2 - 1|), value * sat)
        else if 4 ≤ hue * 6 ∧ hue * 6 ≤ 5 then
          (value * sat * (1 - |fmodQ (hue * 6) 2 - 1|), 0, value * sat)
        else if 5 ≤ hue * 6 ∧ hue * 6 ≤ 6 then
          (value * sat, 0, value * sat * (1 - |fmodQ (hue * 6) 2 - 1|))
        else (0, 0, 0)).2.2 + (value - value * sat)) := rfl

lemma roundtrip_caseA (v : ℚ) : hsv_to_rgb_pixel 0 0 v = (v, v, v) := by
  rw [hsv_to_rgb_pixel_eq]
  rw [if_pos (by norm_num : (0 : ℚ) ≤ 0 * 6 ∧ (0 : ℚ) * 6 ≤ 1)]
  simp only [Prod.mk.injEq]
  refine ⟨by ring, by ring, by ring⟩

lemma roundtrip_caseB1 (r g b : ℚ) (hr0 : 0 < r) (hD : 0 < r - b) (hbg : b ≤ g) (hgr : g ≤ r) :
    hsv_to_rgb_pixel ((g - b) / (r - b) / 6) ((r - b) / r) r = (r, g, b) := by
  have hDne : r - b ≠ 0 := ne_of_gt hD
  have hrne : r ≠ 0 := ne_of_gt hr0
  rw [hsv_to_rgb_pixel_eq]
  have hh6 : (g - b) / (r - b) / 6 * 6 = (g - b) / (r - b) := by ring
  rw [hh6]
  have hw0 : 0 ≤ (g - b) / (r - b) := div_nonneg (by linarith) (le_of_lt hD)
  have hw1 : (g - b) / (r - b) ≤ 1 := by
    rw [div_le_one hD]
    linarith
  rw [if_pos ⟨hw0, hw1⟩, fmodQ_lt_two hw0 (by linarith),
    abs_of_nonpos (by linarith : (g - b) / (r - b) - 1 ≤ 0)]
  simp only [Prod.mk.injEq]
  refine ⟨by ring, ?_, ?_⟩
  · field_simp
    try ring
  · field_simp
    try ring

lemma roundtrip_caseB2 (r g b : ℚ) (hr0 : 0 < r) (hD : 0 < r - g) (hgb : g < b) (hbr : b ≤ r) :
    hsv_to_rgb_pixel ((g - b) / (r - g) / 6 + 1) ((r - g) / r) r = (r, g, b) := by
  have hDne : r - g ≠ 0 := ne_of_gt hD
  have hrne : r ≠ 0 := ne_of_gt hr0
  rw [hsv_to_rgb_pixel_eq]
  have hh6 : ((g - b) / (r - g) / 6 + 1) * 6 = (g - b) / (r - g) + 6 := by ring
  rw [hh6]
  by_cases hbr2 : b = r
  · subst hbr2
    have ht : (g - b) / (b - g) = -1 := by
      rw [div_eq_iff (by linarith : b - g ≠ 0)]
      ring
    rw [ht]
    rw [if_neg (show ¬((0:ℚ) ≤ -1 + 6 ∧ (-1 + 6 : ℚ) ≤ 1) by norm_num),
        if_neg (show ¬((1:ℚ) ≤ -1 + 6 ∧ (-1 + 6 : ℚ) ≤ 2) by norm_num),
        if_neg (show ¬((2:ℚ) ≤ -1 + 6 ∧ (-1 + 6 : ℚ) ≤ 3) by norm_num),
        if_neg (show ¬((3:ℚ) ≤ -1 + 6 ∧ (-1 + 6 : ℚ) ≤ 4) by norm_num),
        if_pos (show (4:ℚ) ≤ -1 + 6 ∧ (-1 + 6 : ℚ) ≤ 5 by norm_num),
        fmodQ_four_six (show (4:ℚ) ≤ -1 + 6 by norm_num) (show (-1 + 6 : ℚ) < 6 by norm_num),
        show |(-1 + 6 : ℚ) - 4 - 1| = 0 by norm_num]
    simp only [Prod.mk.injEq]
    refine ⟨?_, ?_, ?_⟩ <;> (field_simp; try ring)
  · have hblt : b < r := lt_of_le_of_ne hbr hbr2
    have ht0 : (g - b) / (r - g) < 0 := div_neg_of_neg_of_pos (by linarith) hD
    have ht1 : -1 < (g - b) / (r - g) := by
      rw [lt_div_iff₀ hD]
      linarith
    have hc1 : ¬((0:ℚ) ≤ (g - b) / (r - g) + 6 ∧ (g - b) / (r - g) + 6 ≤ 1) :=
      fun hcon => absurd hcon.2 (by linarith)
    have hc2 : ¬((1:ℚ) ≤ (g - b) / (r - g) + 6 ∧ (g - b) / (r - g) + 6 ≤ 2) :=
      fun hcon => absurd hcon.2 (by linarith)
    have hc3 : ¬((2:ℚ) ≤ (g - b) / (r - g) + 6 ∧ (g - b) / (r - g) + 6 ≤ 3) :=
      fun hcon => absurd hcon.2 (by linarith)
    have hc4 : ¬((3:ℚ) ≤ (g - b) / (r - g) + 6 ∧ (g - b) / (r - g) + 6 ≤ 4) :=
      fun hcon => absurd hcon.2 (by linarith)
    have hc5 : ¬((4:ℚ) ≤ (g - b) / (r - g) + 6 ∧ (g - b) / (r - g) + 6 ≤ 5) :=
      fun hcon => absurd hcon.2 (by linarith)
    rw [if_neg hc1, if_neg hc2, if_neg hc3, if_neg hc4, if_neg hc5,
        if_pos (show (5:ℚ) ≤ (g - b) / (r - g) + 6 ∧ (g - b) / (r - g) + 6 ≤ 6 from
          ⟨by linarith, by linarith⟩),
        fmodQ_four_six (by linarith) (by linarith),
        abs_of_nonneg (by linarith : (0:ℚ) ≤ (g - b) / (r - g) + 6 - 4 - 1)]
    simp only [Prod.mk.injEq]
    refine ⟨?_, ?_, ?_⟩ <;> (field_simp; try ring)

lemma roundtrip_caseC1 (r g b : ℚ) (hg0 : 0 < g) (hD : 0 < g - r) (hrb : r ≤ b) (hbg : b ≤ g) :
    hsv_to_rgb_pixel (((b - r) / (g - r) + 2) / 6) ((g - r) / g) g = (r, g, b) := by
  have hDne : g - r ≠ 0 := ne_of_gt hD
  have hgne : g ≠ 0 := ne_of_gt hg0
  rw [hsv_to_rgb_pixel_eq]
  have hh6 : ((b - r) / (g - r) + 2) / 6 * 6 = (b - r) / (g - r) + 2 := by ring
  rw [hh6]
  have ht1 : (b - r) / (g - r) ≤ 1 := by
    rw [div_le_one hD]
    linarith
  by_cases hbr2 : b = r
  · subst hbr2
    have ht : (b - b) / (g - b) = 0 := by
      rw [div_eq_iff (by linarith : g - b ≠ 0)]
      ring
    rw [ht]
    rw [if_neg (show ¬((0:ℚ) ≤ 0 + 2 ∧ (0 + 2 : ℚ) ≤ 1) by norm_num),
        if_pos (show (1:ℚ) ≤ 0 + 2 ∧ (0 + 2 : ℚ) ≤ 2 by norm_num),
        fmodQ_two_four (show (2:ℚ) ≤ 0 + 2 by norm_num) (show (0 + 2 : ℚ) < 4 by norm_num),
        show |(0 + 2 : ℚ) - 2 - 1| = 1 by norm_num]
    simp only [Prod.mk.injEq]
    refine ⟨?_, ?_, ?_⟩ <;> (field_simp; try ring)
  · have hbr3 : r < b := lt_of_le_of_ne hrb (fun hcon => hbr2 hcon.symm)
    have ht0 : 0 < (b - r) / (g - r) := div_pos (by linarith) hD
    have hc1 : ¬((0:ℚ) ≤ (b - r) / (g - r) + 2 ∧ (b - r) / (g - r) + 2 ≤ 1) :=
      fun hcon => absurd hcon.2 (by linarith)
    have hc2 : ¬((1:ℚ) ≤ (b - r) / (g - r) + 2 ∧ (b - r) / (g - r) + 2 ≤ 2) :=
      fun hcon => absurd hcon.2 (by linarith)
    rw [if_neg hc1, if_neg hc2,
        if_pos (show (2:ℚ) ≤ (b - r) / (g - r) + 2 ∧ (b - r) / (g - r) + 2 ≤ 3 from
          ⟨by linarith, by linarith⟩),
        fmodQ_two_four (by linarith) (by linarith),
        abs_of_nonpos (by linarith : (b - r) / (g - r) + 2 - 2 - 1 ≤ 0)]
    simp only [Prod.mk.injEq]
    refine ⟨?_, ?_, ?_⟩ <;> (field_simp; try ring)

lemma roundtrip_caseC2 (r g b : ℚ) (hg0 : 0 < g) (hD : 0 < g - b) (hbr : b < r) (hrg : r < g) :
    hsv_to_rgb_pixel (((b - r) / (g - b) + 2) / 6) ((g - b) / g) g = (r, g, b) := by
  have hDne : g - b ≠ 0 := ne_of_gt hD
  have hgne : g ≠ 0 := ne_of_gt hg0
  rw [hsv_to_rgb_pixel_eq]
  have hh6 : ((b - r) / (g - b) + 2) / 6 * 6 = (b - r) / (g - b) + 2 := by ring
  rw [hh6]
  have ht0 : (b - r) / (g - b) < 0 := div_neg_of_neg_of_pos (by linarith) hD
  have ht1 : -1 < (b - r) / (g - b) := by
    rw [lt_div_iff₀ hD]
    linarith
  have hc1 : ¬((0:ℚ) ≤ (b - r) / (g - b) + 2 ∧ (b - r) / (g - b) + 2 ≤ 1) :=
    fun hcon => absurd hcon.2 (by linarith)
  rw [if_neg hc1,
      if_pos (show (1:ℚ) ≤ (b - r) / (g - b) + 2 ∧ (b - r) / (g - b) + 2 ≤ 2 from
        ⟨by linarith, by linarith⟩),
      fmodQ_lt_two (by linarith) (by linarith),
      abs_of_nonneg (by linarith : (0:ℚ) ≤ (b - r) / (g - b) + 2 - 1)]
  simp only [Prod.mk.injEq]
  refine ⟨?_, ?_, ?_⟩ <;> (field_simp; try ring)

lemma roundtrip_caseD1 (r g b : ℚ) (hb0 : 0 < b) (hD : 0 < b - g) (hgr : g ≤ r) (hrb : r < b) :
    hsv_to_rgb_pixel (((r - g) / (b - g) + 4) / 6) ((b - g) / b) b = (r, g, b) := by
  have hDne : b - g ≠ 0 := ne_of_gt hD
  have hbne : b ≠ 0 := ne_of_gt hb0
  rw [hsv_to_rgb_pixel_eq]
  have hh6 : ((r - g) / (b - g) + 4) / 6 * 6 = (r - g) / (b - g) + 4 := by ring
  rw [hh6]
  have ht1 : (r - g) / (b - g) < 1 := by
    rw [div_lt_one hD]
    linarith
  by_cases hrg2 : r = g
  · subst hrg2
    have ht : (r - r) / (b - r) = 0 := by
      rw [div_eq_iff (by linarith : b - r ≠ 0)]
      ring
    rw [ht]
    rw [if_neg (show ¬((0:ℚ) ≤ 0 + 4 ∧ (0 + 4 : ℚ) ≤ 1) by norm_num),
        if_neg (show ¬((1:ℚ) ≤ 0 + 4 ∧ (0 + 4 : ℚ) ≤ 2) by norm_num),
        if_neg (show ¬((2:ℚ) ≤ 0 + 4 ∧ (0 + 4 : ℚ) ≤ 3) by norm_num),
        if_pos (show (3:ℚ) ≤ 0 + 4 ∧ (0 + 4 : ℚ) ≤ 4 by norm_num),
        fmodQ_four_six (show (4:ℚ) ≤ 0 + 4 by norm_num) (show (0 + 4 : ℚ) < 6 by norm_num),
        show |(0 + 4 : ℚ) - 4 - 1| = 1 by norm_num]
    simp only [Prod.mk.injEq]
    refine ⟨?_, ?_, ?_⟩ <;> (field_simp; try ring)
  · have hgr3 : g < r := lt_of_le_of_ne hgr (fun hcon => hrg2 hcon.symm)
    have ht0 : 0 < (r - g) / (b - g) := div_pos (by linarith) hD
    have hc1 : ¬((0:ℚ) ≤ (r - g) / (b - g) + 4 ∧ (r - g) / (b - g) + 4 ≤ 1) :=
      fun hcon => absurd hcon.2 (by linarith)
    have hc2 : ¬((1:ℚ) ≤ (r - g) / (b - g) + 4 ∧ (r - g) / (b - g) + 4 ≤ 2) :=
      fun hcon => absurd hcon.2 (by linarith)
    have hc3 : ¬((2:ℚ) ≤ (r - g) / (b - g) + 4 ∧ (r - g) / (b - g) + 4 ≤ 3) :=
      fun hcon => absurd hcon.2 (by linarith)
    have hc4 : ¬((3:ℚ) ≤ (r - g) / (b - g) + 4 ∧ (r - g) / (b - g) + 4 ≤ 4) :=
      fun hcon => absurd hcon.2 (by linarith)
    rw [if_neg hc1, if_neg hc2, if_neg hc3, if_neg hc4,
        if_pos (show (4:ℚ) ≤ (r - g) / (b - g) + 4 ∧ (r - g) / (b - g) + 4 ≤ 5 from
          ⟨by linarith, by linarith⟩),
        fmodQ_four_six (by linarith) (by linarith),
        abs_of_nonpos (by linarith : (r - g) / (b - g) + 4 - 4 - 1 ≤ 0)]
    simp only [Prod.mk.injEq]
    refine ⟨?_, ?_, ?_⟩ <;> (field_simp; try ring)

lemma roundtrip_caseD2 (r g b : ℚ) (hb0 : 0 < b) (hD : 0 < b - r) (hrg : r < g) (hgb : g < b) :
    hsv_to_rgb_pixel (((r - g) / (b - r) + 4) / 6) ((b - r) / b) b = (r, g, b) := by
  have hDne : b - r ≠ 0 := ne_of_gt hD
  have hbne : b ≠ 0 := ne_of_gt hb0
  rw [hsv_to_rgb_pixel_eq]
  have hh6 : ((r - g) / (b - r) + 4) / 6 * 6 = (r - g) / (b - r) + 4 := by ring
  rw [hh6]
  have ht0 : (r - g) / (b - r) < 0 := div_neg_of_neg_of_pos (by linarith) hD
  have ht1 : -1 < (r - g) / (b - r) := by
    rw [lt_div_iff₀ hD]
    linarith
  have hc1 : ¬((0:ℚ) ≤ (r - g) / (b - r) + 4 ∧ (r - g) / (b - r) + 4 ≤ 1) :=
    fun hcon => absurd hcon.2 (by linarith)
  have hc2 : ¬((1:ℚ) ≤ (r - g) / (b - r) + 4 ∧ (r - g) / (b - r) + 4 ≤ 2) :=
    fun hcon => absurd hcon.2 (by linarith)
  have hc3 : ¬((2:ℚ) ≤ (r - g) / (b - r) + 4 ∧ (r - g) / (b - r) + 4 ≤ 3) :=
    fun hcon => absurd hcon.2 (by linarith)
  rw [if_neg hc1, if_neg hc2, if_neg hc3,
      if_pos (show (3:ℚ) ≤ (r - g) / (b - r) + 4 ∧ (r - g) / (b - r) + 4 ≤ 4 from
        ⟨by linarith, by linarith⟩),
      fmodQ_two_four (by linarith) (by linarith),
      abs_of_nonneg (by linarith : (0:ℚ) ≤ (r - g) / (b - r) + 4 - 2 - 1)]
  simp only [Prod.mk.injEq]
  refine ⟨?_, ?_, ?_⟩ <;> (field_simp; try ring)

lemma rgb_to_hsv_pixel_eq (red green blue : ℚ) :
    rgb_to_hsv_pixel red green blue =
      (if three_way_max red green blue - three_way_min red green blue ≠ 0 then
        (if (if three_way_max red green blue = red then
              (green - blue) / (three_way_max red green blue - three_way_min red green blue)
            else if three_way_max red green blue = green then
              (blue - red) / (three_way_max red green blue - three_way_min red green blue) + 2
            else
              (red - green) / (three_way_max red green blue - three_way_min red green blue) + 4)
            < 0 then
          (if three_way_max red green blue = red then
              (green - blue) / (three_way_max red green blue - three_way_min red green blue)
            else if three_way_max red green blue = green then
              (blue - red) / (three_way_max red green blue - three_way_min red green blue) + 2
            else
              (red - green) / (three_way_max red green blue - three_way_min red green blue) + 4)
            / 6 + 1
        else
          (if three_way_max red green blue = red then
              (green - blue) / (three_way_max red green blue - three_way_min red green blue)
            else if three_way_max red green blue = green then
              (blue - red) / (three_way_max red green blue - three_way_min red green blue) + 2
            else
              (red - green) / (three_way_max red green blue - three_way_min red green blue) + 4)
            / 6)
      else 0,
      if three_way_max red green blue > 0 then
        (three_way_max red green blue - three_way_min red green blue) /
          three_way_max red green blue
      else 0,
      three_way_max red green blue) := rfl

lemma rgb_hsv_pixel_roundtrip (r g b : ℚ)
    (h0r : 0 ≤ r) (h1r : r ≤ 1) (h0g : 0 ≤ g) (h1g : g ≤ 1) (h0b : 0 ≤ b) (h1b : b ≤ 1) :
    hsv_to_rgb_pixel (rgb_to_hsv_pixel r g b).1 (rgb_to_hsv_pixel r g b).2.1
      (rgb_to_hsv_pixel r g b).2.2 = (r, g, b) := by
  obtain ⟨hra, hga, hba⟩ := three_way_max_ge r g b
  obtain ⟨hrm, hgm, hbm⟩ := three_way_min_le r g b
  by_cases hD : three_way_max r g b - three_way_min r g b = 0
  · have hreq : three_way_max r g b = r := by linarith
    have hgeq : three_way_max r g b = g := by linarith
    have hbeq : three_way_max r g b = b := by linarith
    have hpix : rgb_to_hsv_pixel r g b = (0, 0, three_way_max r g b) := by
      rw [rgb_to_hsv_pixel_eq]
      rw [if_neg (fun hcon => hcon hD), hD]
      simp
    have h1 : (rgb_to_hsv_pixel r g b).1 = 0 := by rw [hpix]
    have h2 : (rgb_to_hsv_pixel r g b).2.1 = 0 := by rw [hpix]
    have h3 : (rgb_to_hsv_pixel r g b).2.2 = three_way_max r g b := by rw [hpix]
    rw [h1, h2, h3, roundtrip_caseA]
    simp only [Prod.mk.injEq]
    exact ⟨hreq, hgeq, hbeq⟩
  · have hminmax : three_way_min r g b ≤ three_way_max r g b := le_trans hrm hra
    have hDpos : 0 < three_way_max r g b - three_way_min r g b :=
      lt_of_le_of_ne (by linarith) (Ne.symm hD)
    have hVpos : 0 < three_way_max r g b := by
      have hmn0 : 0 ≤ three_way_min r g b := by
        rcases three_way_min_mem r g b with h | h | h <;> linarith
      linarith
    by_cases hVr : three_way_max r g b = r
    · have hrpos : 0 < r := by rw [← hVr]; exact hVpos
      by_cases hgb : b ≤ g
      · have hM : three_way_min r g b = b := tmin_eq_c (by linarith) hgb
        have hDrb : 0 < r - b := by
          have h := hDpos
          rw [hVr, hM] at h
          exact h
        have hgr : g ≤ r := by linarith
        have hpix : rgb_to_hsv_pixel r g b = ((g - b) / (r - b) / 6, (r - b) / r, r) := by
          rw [rgb_to_hsv_pixel_eq, hVr, hM]
          rw [if_pos (show r - b ≠ 0 from ne_of_gt hDrb), if_pos (rfl : r = r),
            if_neg (not_lt.mpr (div_nonneg (by linarith) (le_of_lt hDrb))),
            if_pos (show r > 0 from hrpos)]
        have h1 : (rgb_to_hsv_pixel r g b).1 = (g - b) / (r - b) / 6 := by rw [hpix]
        have h2 : (rgb_to_hsv_pixel r g b).2.1 = (r - b) / r := by rw [hpix]
        have h3 : (rgb_to_hsv_pixel r g b).2.2 = r := by rw [hpix]
        rw [h1, h2, h3]
        exact roundtrip_caseB1 r g b hrpos hDrb hgb hgr
      · have hgb2 : g < b := not_le.mp hgb
        have hM : three_way_min r g b = g := tmin_eq_b (by linarith) (le_of_lt hgb2)
        have hDrg : 0 < r - g := by
          have h := hDpos
          rw [hVr, hM] at h
          exact h
        have hbr : b ≤ r := by linarith
        have hpix : rgb_to_hsv_pixel r g b =
            ((g - b) / (r - g) / 6 + 1, (r - g) / r, r) := by
          rw [rgb_to_hsv_pixel_eq, hVr, hM]
          rw [if_pos (show r - g ≠ 0 from ne_of_gt hDrg), if_pos (rfl : r = r),
            if_pos (div_neg_of_neg_of_pos (by linarith) hDrg),
            if_pos (show r > 0 from hrpos)]
        have h1 : (rgb_to_hsv_pixel r g b).1 = (g - b) / (r - g) / 6 + 1 := by rw [hpix]
        have h2 : (rgb_to_hsv_pixel r g b).2.1 = (r - g) / r := by rw [hpix]
        have h3 : (rgb_to_hsv_pixel r g b).2.2 = r := by rw [hpix]
        rw [h1, h2, h3]
        exact roundtrip_caseB2 r g b hrpos hDrg hgb2 hbr
    · by_cases hVg : three_way_max r g b = g
      · have hgpos : 0 < g := by rw [← hVg]; exact hVpos
        have hgner : g ≠ r := fun hcon => hVr (hVg.trans hcon)
        by_cases hrb : r ≤ b
        · have hM : three_way_min r g b = r := tmin_eq_a (by linarith) hrb
          have hDgr : 0 < g - r := by
            have h := hDpos
            rw [hVg, hM] at h
            exact h
          have hbg2 : b ≤ g := by linarith
          have ht0 : 0 ≤ (b - r) / (g - r) := div_nonneg (by linarith) (le_of_lt hDgr)
          have hpix : rgb_to_hsv_pixel r g b =
              (((b - r) / (g - r) + 2) / 6, (g - r) / g, g) := by
            rw [rgb_to_hsv_pixel_eq, hVg, hM]
            rw [if_pos (show g - r ≠ 0 from ne_of_gt hDgr), if_neg hgner,
              if_pos (rfl : g = g), if_neg (not_lt.mpr (by linarith)),
              if_pos (show g > 0 from hgpos)]
          have h1 : (rgb_to_hsv_pixel r g b).1 = ((b - r) / (g - r) + 2) / 6 := by rw [hpix]
          have h2 : (rgb_to_hsv_pixel r g b).2.1 = (g - r) / g := by rw [hpix]
          have h3 : (rgb_to_hsv_pixel r g b).2.2 = g := by rw [hpix]
          rw [h1, h2, h3]
          exact roundtrip_caseC1 r g b hgpos hDgr hrb hbg2
        · have hbr2 : b < r := not_le.mp hrb
          have hM : three_way_min r g b = b := tmin_eq_c (le_of_lt hbr2) (by linarith)
          have hDgb : 0 < g - b := by
            have h := hDpos
            rw [hVg, hM] at h
            exact h
          have hrg2 : r < g := lt_of_le_of_ne (by linarith)
            (fun hcon => hVr (hVg.trans hcon.symm))
          have ht1 : -1 < (b - r) / (g - b) := by
            rw [lt_div_iff₀ hDgb]
            linarith
          have hpix : rgb_to_hsv_pixel r g b =
              (((b - r) / (g - b) + 2) / 6, (g - b) / g, g) := by
            rw [rgb_to_hsv_pixel_eq, hVg, hM]
            rw [if_pos (show g - b ≠ 0 from ne_of_gt hDgb), if_neg hgner,
              if_pos (rfl : g = g), if_neg (not_lt.mpr (by linarith)),
              if_pos (show g > 0 from hgpos)]
          have h1 : (rgb_to_hsv_pixel r g b).1 = ((b - r) / (g - b) + 2) / 6 := by rw [hpix]
          have h2 : (rgb_to_hsv_pixel r g b).2.1 = (g - b) / g := by rw [hpix]
          have h3 : (rgb_to_hsv_pixel r g b).2.2 = g := by rw [hpix]
          rw [h1, h2, h3]
          exact roundtrip_caseC2 r g b hgpos hDgb hbr2 hrg2
      · have hVb : three_way_max r g b = b := by
          rcases three_way_max_mem r g b with h | h | h
          · exact absurd h hVr
          · exact absurd h hVg
          · exact h
        have hbpos : 0 < b := by rw [← hVb]; exact hVpos
        have hbner : b ≠ r := fun hcon => hVr (hVb.trans hcon)
        have hbneg : b ≠ g := fun hcon => hVg (hVb.trans hcon)
        by_cases hgr : g ≤ r
        · have hM : three_way_min r g b = g := tmin_eq_b hgr (by linarith)
          have hDbg : 0 < b - g := by
            have h := hDpos
            rw [hVb, hM] at h
            exact h
          have hrb2 : r < b := lt_of_le_of_ne (by linarith)
            (fun hcon => hVr (hVb.trans hcon.symm))
          have ht0 : 0 ≤ (r - g) / (b - g) := div_nonneg (by linarith) (le_of_lt hDbg)
          have hpix : rgb_to_hsv_pixel r g b =
              (((r - g) / (b - g) + 4) / 6, (b - g) / b, b) := by
            rw [rgb_to_hsv_pixel_eq, hVb, hM]
            rw [if_pos (show b - g ≠ 0 from ne_of_gt hDbg), if_neg hbner, if_neg hbneg,
              if_neg (not_lt.mpr (by linarith)), if_pos (show b > 0 from hbpos)]
          have h1 : (rgb_to_hsv_pixel r g b).1 = ((r - g) / (b - g) + 4) / 6 := by rw [hpix]
          have h2 : (rgb_to_hsv_pixel r g b).2.1 = (b - g) / b := by rw [hpix]
          have h3 : (rgb_to_hsv_pixel r g b).2.2 = b := by rw [hpix]
          rw [h1, h2, h3]
          exact roundtrip_caseD1 r g b hbpos hDbg hgr hrb2
        · have hgr2 : r < g := not_le.mp hgr
          have hM : three_way_min r g b = r := tmin_eq_a (le_of_lt hgr2) (by linarith)
          have hDbr : 0 < b - r := by
            have h := hDpos
            rw [hVb, hM] at h
            exact h
          have hgb2 : g < b := lt_of_le_of_ne (by linarith)
            (fun hcon => hVg (hVb.trans hcon.symm))
          have ht1 : -1 < (r - g) / (b - r) := by
            rw [lt_div_iff₀ hDbr]
            linarith
          have hpix : rgb_to_hsv_pixel r g b =
              (((r - g) / (b - r) + 4) / 6, (b - r) / b, b) := by
            rw [rgb_to_hsv_pixel_eq, hVb, hM]
            rw [if_pos (show b - r ≠ 0 from ne_of_gt hDbr), if_neg hbner, if_neg hbneg,
              if_neg (not_lt.mpr (by linarith)), if_pos (show b > 0 from hbpos)]
          have h1 : (rgb_to_hsv_pixel r g b).1 = ((r - g) / (b - r) + 4) / 6 := by rw [hpix]
          have h2 : (rgb_to_hsv_pixel r g b).2.1 = (b - r) / b := by rw [hpix]
          have h3 : (rgb_to_hsv_pixel r g b).2.2 = b := by rw [hpix]
          rw [h1, h2, h3]
          exact roundtrip_caseD2 r g b hbpos hDbr hgr2 hgb2

lemma set3_dims (b : image) (i j : ℤ) (p : ℚ × ℚ × ℚ) :
    dimsEq (set_pixel (set_pixel (set_pixel b i j 0 p.1) i j 1 p.2.1) i j 2 p.2.2) b :=
  dimsEq_trans (set_pixel_dims _ _ _ _ _)
    (dimsEq_trans (set_pixel_dims _ _ _ _ _) (set_pixel_dims _ _ _ _ _))

lemma set3_frame (b : image) {i j : ℕ} (hi : i < b.w) (hj : j < b.h) (hc3 : b.c = 3)
    (p : ℚ × ℚ × ℚ) {m : ℕ} (hm : ∀ ch : ℕ, ch < 3 → idx b i j ch ≠ m) :
    (set_pixel (set_pixel (set_pixel b (i : ℤ) (j : ℤ) ((0 : ℕ) : ℤ) p.1)
      (i : ℤ) (j : ℤ) ((1 : ℕ) : ℤ) p.2.1)
      (i : ℤ) (j : ℤ) ((2 : ℕ) : ℤ) p.2.2).data.getD m 0 = b.data.getD m 0 := by
  obtain ⟨h1w, h1h, h1c, h1len⟩ := set_pixel_dims b (i : ℤ) (j : ℤ) ((0 : ℕ) : ℤ) p.1
  obtain ⟨h2w, h2h, h2c, h2len⟩ :=
    set_pixel_dims (set_pixel b (i : ℤ) (j : ℤ) ((0 : ℕ) : ℤ) p.1)
      (i : ℤ) (j : ℤ) ((1 : ℕ) : ℤ) p.2.1
  have e3 : (set_pixel (set_pixel (set_pixel b (i : ℤ) (j : ℤ) ((0 : ℕ) : ℤ) p.1)
      (i : ℤ) (j : ℤ) ((1 : ℕ) : ℤ) p.2.1)
      (i : ℤ) (j : ℤ) ((2 : ℕ) : ℤ) p.2.2).data.getD m 0 =
      (set_pixel (set_pixel b (i : ℤ) (j : ℤ) ((0 : ℕ) : ℤ) p.1)
        (i : ℤ) (j : ℤ) ((1 : ℕ) : ℤ) p.2.1).data.getD m 0 :=
    set_pixel_getD_ne _ (by omega) (by omega) (by omega) _
      (by rw [idx_congr (h2w.trans h1w) (h2h.trans h1h)]; exact hm 2 (by norm_num))
  have e2 : (set_pixel (set_pixel b (i : ℤ) (j : ℤ) ((0 : ℕ) : ℤ) p.1)
      (i : ℤ) (j : ℤ) ((1 : ℕ) : ℤ) p.2.1).data.getD m 0 =
      (set_pixel b (i : ℤ) (j : ℤ) ((0 : ℕ) : ℤ) p.1).data.getD m 0 :=
    set_pixel_getD_ne _ (by omega) (by omega) (by omega) _
      (by rw [idx_congr h1w h1h]; exact hm 1 (by norm_num))
  have e1 : (set_pixel b (i : ℤ) (j : ℤ) ((0 : ℕ) : ℤ) p.1).data.getD m 0 =
      b.data.getD m 0 :=
    set_pixel_getD_ne b hi hj (by omega) p.1 (hm 0 (by norm_num))
  exact e3.trans (e2.trans e1)

lemma set3_getD (b : image) {i j : ℕ} (hi : i < b.w) (hj : j < b.h) (hc3 : b.c = 3)
    (hlen : b.data.length = b.w * b.h * b.c) (p : ℚ × ℚ × ℚ) :
    ∀ ch : ℕ, ch < 3 →
      (set_pixel (set_pixel (set_pixel b (i : ℤ) (j : ℤ) ((0 : ℕ) : ℤ) p.1)
        (i : ℤ) (j : ℤ) ((1 : ℕ) : ℤ) p.2.1)
        (i : ℤ) (j : ℤ) ((2 : ℕ) : ℤ) p.2.2).data.getD (idx b i j ch) 0 = comp3 p ch := by
  obtain ⟨h1w, h1h, h1c, h1len⟩ := set_pixel_dims b (i : ℤ) (j : ℤ) ((0 : ℕ) : ℤ) p.1
  obtain ⟨h2w, h2h, h2c, h2len⟩ :=
    set_pixel_dims (set_pixel b (i : ℤ) (j : ℤ) ((0 : ℕ) : ℤ) p.1)
      (i : ℤ) (j : ℤ) ((1 : ℕ) : ℤ) p.2.1
  have hidx_ne : ∀ ch1 ch2 : ℕ, ch1 ≠ ch2 → idx b i j ch1 ≠ idx b i j ch2 := by
    intro ch1 ch2 hne he
    exact hne (idx_inj b hi hj hi hj he).2.2
  have hlen1 : (set_pixel b (i : ℤ) (j : ℤ) ((0 : ℕ) : ℤ) p.1).data.length =
      (set_pixel b (i : ℤ) (j : ℤ) ((0 : ℕ) : ℤ) p.1).w *
      (set_pixel b (i : ℤ) (j : ℤ) ((0 : ℕ) : ℤ) p.1).h *
      (set_pixel b (i : ℤ) (j : ℤ) ((0 : ℕ) : ℤ) p.1).c := by
    rw [h1len, h1w, h1h, h1c]
    exact hlen
  have hlen2 : (set_pixel (set_pixel b (i : ℤ) (j : ℤ) ((0 : ℕ) : ℤ) p.1)
      (i : ℤ) (j : ℤ) ((1 : ℕ) : ℤ) p.2.1).data.length =
      (set_pixel (set_pixel b (i : ℤ) (j : ℤ) ((0 : ℕ) : ℤ) p.1)
        (i : ℤ) (j : ℤ) ((1 : ℕ) : ℤ) p.2.1).w *
      (set_pixel (set_pixel b (i : ℤ) (j : ℤ) ((0 : ℕ) : ℤ) p.1)
        (i : ℤ) (j : ℤ) ((1 : ℕ) : ℤ) p.2.1).h *
      (set_pixel (set_pixel b (i : ℤ) (j : ℤ) ((0 : ℕ) : ℤ) p.1)
        (i : ℤ) (j : ℤ) ((1 : ℕ) : ℤ) p.2.1).c := by
    rw [h2len, h2w, h2h, h2c]
    exact hlen1
  intro ch hch
  interval_cases ch
  · have e3 : (set_pixel (set_pixel (set_pixel b (i : ℤ) (j : ℤ) ((0 : ℕ) : ℤ) p.1)
        (i : ℤ) (j : ℤ) ((1 : ℕ) : ℤ) p.2.1)
        (i : ℤ) (j : ℤ) ((2 : ℕ) : ℤ) p.2.2).data.getD (idx b i j 0) 0 =
        (set_pixel (set_pixel b (i : ℤ) (j : ℤ) ((0 : ℕ) : ℤ) p.1)
          (i : ℤ) (j : ℤ) ((1 : ℕ) : ℤ) p.2.1).data.getD (idx b i j 0) 0 :=
      set_pixel_getD_ne _ (by omega) (by omega) (by omega) _
        (by rw [idx_congr (h2w.trans h1w) (h2h.trans h1h)]; exact hidx_ne 2 0 (by norm_num))
    have e2 : (set_pixel (set_pixel b (i : ℤ) (j : ℤ) ((0 : ℕ) : ℤ) p.1)
        (i : ℤ) (j : ℤ) ((1 : ℕ) : ℤ) p.2.1).data.getD (idx b i j 0) 0 =
        (set_pixel b (i : ℤ) (j : ℤ) ((0 : ℕ) : ℤ) p.1).data.getD (idx b i j 0) 0 :=
      set_pixel_getD_ne _ (by omega) (by omega) (by omega) _
        (by rw [idx_congr h1w h1h]; exact hidx_ne 1 0 (by norm_num))
    exact e3.trans (e2.trans (set_pixel_getD_self b hi hj (by omega) p.1 hlen))
  · have e3 : (set_pixel (set_pixel (set_pixel b (i : ℤ) (j : ℤ) ((0 : ℕ) : ℤ) p.1)
        (i : ℤ) (j : ℤ) ((1 : ℕ) : ℤ) p.2.1)
        (i : ℤ) (j : ℤ) ((2 : ℕ) : ℤ) p.2.2).data.getD (idx b i j 1) 0 =
        (set_pixel (set_pixel b (i : ℤ) (j : ℤ) ((0 : ℕ) : ℤ) p.1)
          (i : ℤ) (j : ℤ) ((1 : ℕ) : ℤ) p.2.1).data.getD (idx b i j 1) 0 :=
      set_pixel_getD_ne _ (by omega) (by omega) (by omega) _
        (by rw [idx_congr (h2w.trans h1w) (h2h.trans h1h)]; exact hidx_ne 2 1 (by norm_num))
    have e2 : (set_pixel (set_pixel b (i : ℤ) (j : ℤ) ((0 : ℕ) : ℤ) p.1)
        (i : ℤ) (j : ℤ) ((1 : ℕ) : ℤ) p.2.1).data.getD
        (idx (set_pixel b (i : ℤ) (j : ℤ) ((0 : ℕ) : ℤ) p.1) i j 1) 0 = p.2.1 :=
      set_pixel_getD_self _ (by omega) (by omega) (by omega) _ hlen1
    rw [idx_congr h1w h1h] at e2
    exact e3.trans e2
  · have e3 : (set_pixel (set_pixel (set_pixel b (i : ℤ) (j : ℤ) ((0 : ℕ) : ℤ) p.1)
        (i : ℤ) (j : ℤ) ((1 : ℕ) : ℤ) p.2.1)
        (i : ℤ) (j : ℤ) ((2 : ℕ) : ℤ) p.2.2).data.getD
        (idx (set_pixel (set_pixel b (i : ℤ) (j : ℤ) ((0 : ℕ) : ℤ) p.1)
          (i : ℤ) (j : ℤ) ((1 : ℕ) : ℤ) p.2.1) i j 2) 0 = p.2.2 :=
      set_pixel_getD_self _ (by omega) (by omega) (by omega) _ hlen2
    rw [idx_congr (h2w.trans h1w) (h2h.trans h1h)] at e3
    exact e3

lemma pixel_map_spec (f : ℚ → ℚ → ℚ → ℚ × ℚ × ℚ) (step : image → ℤ → ℤ → image)
    (hstep : ∀ (b : image) (i j : ℤ), step b i j =
      set_pixel (set_pixel (set_pixel b i j 0
        (f (get_pixel b i j 0) (get_pixel b i j 1) (get_pixel b i j 2)).1)
        i j 1 (f (get_pixel b i j 0) (get_pixel b i j 1) (get_pixel b i j 2)).2.1)
        i j 2 (f (get_pixel b i j 0) (get_pixel b i j 1) (get_pixel b i j 2)).2.2)
    (im : image) (hc3 : im.c = 3) (hlen : im.data.length = im.w * im.h * im.c) :
    dimsEq ((List.range im.w).foldl (fun a (i : ℕ) =>
      (List.range im.h).foldl (fun a2 (j : ℕ) => step a2 (i : ℤ) (j : ℤ)) a) im) im ∧
    ∀ x y ch, x < im.w → y < im.h → ch < 3 →
      sample ((List.range im.w).foldl (fun a (i : ℕ) =>
        (List.range im.h).foldl (fun a2 (j : ℕ) => step a2 (i : ℤ) (j : ℤ)) a) im) x y ch =
      comp3 (f (sample im x y 0) (sample im x y 1) (sample im x y 2)) ch := by
  have hstepdims : ∀ (b : image) (i j : ℤ), dimsEq (step b i j) b := by
    intro b i j
    rw [hstep]
    exact set3_dims b i j _
  have hdims : dimsEq ((List.range im.w).foldl (fun a (i : ℕ) =>
      (List.range im.h).foldl (fun a2 (j : ℕ) => step a2 (i : ℤ) (j : ℤ)) a) im) im :=
    foldl2_dims (fun b i j => step b (i : ℤ) (j : ℤ)) im.w im.h
      (fun b i j => hstepdims b (i : ℤ) (j : ℤ)) im
  refine ⟨hdims, ?_⟩
  intro x y ch hx hy hch
  have key := foldl2_effect (fun b i j => step b (i : ℤ) (j : ℤ))
    (fun i j m => ∃ ch1, ch1 < 3 ∧ m = idx im i j ch1) im
    (fun m => comp3 (f (sample im (m % im.w) ((m / im.w) % im.h) 0)
      (sample im (m % im.w) ((m / im.w) % im.h) 1)
      (sample im (m % im.w) ((m / im.w) % im.h) 2)) (m / (im.w * im.h)))
    im.w im.h (fun b i j => hstepdims b (i : ℤ) (j : ℤ))
    ?_ ?_ ?_ im (dimsEq_refl _) (fun _ _ _ _ _ _ => rfl)
    x y hx hy (idx im x y ch) ⟨ch, hch, rfl⟩
  · have hF : comp3 (f (sample im (idx im x y ch % im.w) ((idx im x y ch / im.w) % im.h) 0)
        (sample im (idx im x y ch % im.w) ((idx im x y ch / im.w) % im.h) 1)
        (sample im (idx im x y ch % im.w) ((idx im x y ch / im.w) % im.h) 2))
        (idx im x y ch / (im.w * im.h)) =
        comp3 (f (sample im x y 0) (sample im x y 1) (sample im x y 2)) ch := by
      rw [(@idx_decomp im x y ch hx hy).1, (@idx_decomp im x y ch hx hy).2.1,
        (@idx_decomp im x y ch hx hy).2.2]
    simp only [sample]
    rw [idx_congr hdims.1 hdims.2.1 x y ch]
    exact key.trans hF
  · intro b i j hi hj hb m hnot
    obtain ⟨hbw, hbh, hbc, hblen⟩ := hb
    show (step b (i : ℤ) (j : ℤ)).data.getD m 0 = b.data.getD m 0
    rw [hstep]
    exact set3_frame b (by omega) (by omega) (by omega) _
      (fun ch1 hch1 he => hnot ⟨ch1, hch1, by rw [← he, idx_congr hbw hbh]⟩)
  · intro b i j hi hj hb hag m hm
    obtain ⟨hbw, hbh, hbc, hblen⟩ := hb
    obtain ⟨ch1, hch1, hm2⟩ := hm
    subst hm2
    have hib : i < b.w := by omega
    have hjb : j < b.h := by omega
    have hc3b : b.c = 3 := by omega
    have hlenb : b.data.length = b.w * b.h * b.c := by
      rw [hblen, hlen, hbw, hbh, hbc]
    have r0 : get_pixel b (i : ℤ) (j : ℤ) (0 : ℤ) = sample im i j 0 := by
      have h := get_pixel_valid b hib hjb (show (0 : ℕ) < b.c by omega)
      have h2 : sample b i j 0 = sample im i j 0 := by
        simp only [sample]
        rw [idx_congr hbw hbh]
        exact hag (idx im i j 0) ⟨0, by norm_num, rfl⟩
      exact h.trans h2
    have r1 : get_pixel b (i : ℤ) (j : ℤ) (1 : ℤ) = sample im i j 1 := by
      have h := get_pixel_valid b hib hjb (show (1 : ℕ) < b.c by omega)
      have h2 : sample b i j 1 = sample im i j 1 := by
        simp only [sample]
        rw [idx_congr hbw hbh]
        exact hag (idx im i j 1) ⟨1, by norm_num, rfl⟩
      exact h.trans h2
    have r2 : get_pixel b (i : ℤ) (j : ℤ) (2 : ℤ) = sample im i j 2 := by
      have h := get_pixel_valid b hib hjb (show (2 : ℕ) < b.c by omega)
      have h2 : sample b i j 2 = sample im i j 2 := by
        simp only [sample]
        rw [idx_congr hbw hbh]
        exact hag (idx im i j 2) ⟨2, by norm_num, rfl⟩
      exact h.trans h2
    show (step b (i : ℤ) (j : ℤ)).data.getD (idx im i j ch1) 0 =
      comp3 (f (sample im (idx im i j ch1 % im.w) ((idx im i j ch1 / im.w) % im.h) 0)
        (sample im (idx im i j ch1 % im.w) ((idx im i j ch1 / im.w) % im.h) 1)
        (sample im (idx im i j ch1 % im.w) ((idx im i j ch1 / im.w) % im.h) 2))
        (idx im i j ch1 / (im.w * im.h))
    rw [hstep, r0, r1, r2]
    have key2 := set3_getD b hib hjb hc3b hlenb
      (f (sample im i j 0) (sample im i j 1) (sample im i j 2)) ch1 hch1
    rw [idx_congr hbw hbh] at key2
    have hF2 : comp3 (f (sample im i j 0) (sample im i j 1) (sample im i j 2)) ch1 =
        comp3 (f (sample im (idx im i j ch1 % im.w) ((idx im i j ch1 / im.w) % im.h) 0)
          (sample im (idx im i j ch1 % im.w) ((idx im i j ch1 / im.w) % im.h) 1)
          (sample im (idx im i j ch1 % im.w) ((idx im i j ch1 / im.w) % im.h) 2))
          (idx im i j ch1 / (im.w * im.h)) := by
      rw [(@idx_decomp im i j ch1 hi hj).1, (@idx_decomp im i j ch1 hi hj).2.1,
        (@idx_decomp im i j ch1 hi hj).2.2]
    exact key2.trans hF2
  · intro i j i1 j1 hi hj hi1 hj1 hne m hm1 hm2
    obtain ⟨ch1, hch1, he1⟩ := hm1
    obtain ⟨ch2, hch2, he2⟩ := hm2
    obtain ⟨e1, e2, e3⟩ := idx_inj im hi hj hi1 hj1 (he1.symm.trans he2)
    exact hne ⟨e1, e2⟩

lemma rgb_to_hsv_spec (im : image) (hc3 : im.c = 3)
    (hlen : im.data.length = im.w * im.h * im.c) :
    dimsEq (rgb_to_hsv im) im ∧
    ∀ x y ch, x < im.w → y < im.h → ch < 3 →
      sample (rgb_to_hsv im) x y ch =
        comp3 (rgb_to_hsv_pixel (sample im x y 0) (sample im x y 1) (sample im x y 2)) ch :=
  pixel_map_spec rgb_to_hsv_pixel rgb_to_hsv_step (fun b i j => rfl) im hc3 hlen

lemma hsv_to_rgb_spec (im : image) (hc3 : im.c = 3)
    (hlen : im.data.length = im.w * im.h * im.c) :
    dimsEq (hsv_to_rgb im) im ∧
    ∀ x y ch, x < im.w → y < im.h → ch < 3 →
      sample (hsv_to_rgb im) x y ch =
        comp3 (hsv_to_rgb_pixel (sample im x y 0) (sample im x y 1) (sample im x y 2)) ch :=
  pixel_map_spec hsv_to_rgb_pixel hsv_to_rgb_step (fun b i j => rfl) im hc3 hlen

lemma rgb_to_grayscale_spec (im : image) :
    dimsEq (rgb_to_grayscale im) (make_image im.w im.h 1) ∧
    ∀ i j, i < im.w → j < im.h →
      (rgb_to_grayscale im).data.getD (i + j * im.w) 0 =
        get_pixel im (i : ℤ) (j : ℤ) 0 * (299/1000) +
        get_pixel im (i : ℤ) (j : ℤ) 1 * (587/1000) +
        get_pixel im (i : ℤ) (j : ℤ) 2 * (114/1000) :=
  fill2_spec (fun i j => get_pixel im (i : ℤ) (j : ℤ) 0 * (299/1000) +
    get_pixel im (i : ℤ) (j : ℤ) 1 * (587/1000) +
    get_pixel im (i : ℤ) (j : ℤ) 2 * (114/1000)) im.w im.h

/-- C1: the claim that `bilinear_interpolate` at an exact integer coordinate
returns the stored pixel value is refuted by the code: at any integer
`(x, y)` we have `left = right` and `top = bottom`, so all four blend
weights vanish and the result is 0 for every image and channel; on the 2x2
image the stored sample at `(0,0,0)` is 1 but the interpolation returns 0. -/
theorem bilinear_integer_coordinate_zero :
    (∀ (im : image) (xi yi c : ℤ), bilinear_interpolate im (xi : ℚ) (yi : ℚ) c = 0) ∧
    bilinear_interpolate img2x2 0 0 0 = 0 ∧ sample img2x2 0 0 0 = 1 := by
  refine ⟨bilinear_intCast_zero, ?_, by decide⟩
  have h0 := bilinear_intCast_zero img2x2 0 0 0
  norm_num at h0
  exact h0

/-- C2: `nn_resize(im, im.w, im.h)` reproduces `im` exactly (the half-pixel
mapping degenerates to the identity and `round` is exact on integers), but
`bilinear_resize(im, im.w, im.h)` does not reproduce `im` even within a
tolerance: because `bilinear_interpolate` returns 0 at the integer
coordinates produced by the identity mapping, the 1x1 image with sample 5
resizes to the zero image. -/
theorem resize_identity_check :
    (∀ im : image, im.data.length = im.w * im.h * im.c → nn_resize im im.w im.h = im) ∧
    (bilinear_resize img1x1 1 1).data = [0] ∧ img1x1.data = [5] :=
  ⟨fun im hlen => nn_resize_identity im hlen, bilinear_resize_1x1, rfl⟩

theorem resize_identity_check_witness :
    nn_resize ⟨2, 1, 1, [7, 8]⟩ 2 1 = ⟨2, 1, 1, [7, 8]⟩ :=
  resize_identity_check.1 ⟨2, 1, 1, [7, 8]⟩ (by decide)

/-- C3: `get_pixel`'s clamping compares with `>` instead of `>=`, so the
coordinate `x = w` is not clamped.  On the 2x2 image, `get_pixel(im,2,0,0)`
returns 3 — the sample stored at `(0,1,0)` — not the edge sample 2 at
`(1,0,0)`; and `get_pixel(im,2,1,0)` computes linear offset 4, equal to the
buffer length, i.e. an out-of-bounds read in C.  This refutes the claim
that every `x >= w` is clamped to the nearest edge and that no call
accesses the buffer out of bounds. -/
theorem get_pixel_edge_bug :
    get_pixel img2x2 2 0 0 = 3 ∧
    sample img2x2 1 0 0 = 2 ∧
    get_index img2x2 2 1 0 = 4 ∧
    img2x2.data.length = 4 := by
  refine ⟨?_, ?_, ?_, ?_⟩ <;> decide

/-- C4: `set_pixel`'s guards compare with `>` instead of `>=`, so a write
at `x = w` is not dropped: on the 2x2 image, `set_pixel(im,2,0,0,99)`
lands at linear offset 2 and overwrites the sample stored at `(0,1,0)`.
Moreover on the 1x1 image `set_pixel(im,1,1,1,v)` passes all guards and
targets offset 3, past the end of the 1-element buffer — in C, a write
outside the allocation.  This refutes the claim that every out-of-range
write is silently dropped and that no write touches memory outside the
buffer. -/
theorem set_pixel_edge_bug :
    (set_pixel img2x2 2 0 0 99).data = [1, 2, 99, 4] ∧
    sample (set_pixel img2x2 2 0 0 99) 0 1 0 = 99 ∧
    sample img2x2 0 1 0 = 3 ∧
    set_index img1x1 1 1 1 = some 3 ∧
    img1x1.data.length = 1 := by
  refine ⟨?_, ?_, ?_, ?_, ?_⟩ <;> decide

/-- C5: for a 3-channel image whose samples all lie in [0,1], converting a
copy to HSV and back to RGB reproduces every sample of the original image
exactly (hence within any tolerance such as 1e-4), including achromatic
pixels where the hue is left at 0. -/
theorem hsv_roundtrip_correct (im : image) (hc3 : im.c = 3)
    (hlen : im.data.length = im.w * im.h * im.c)
    (hrange : ∀ x y ch, x < im.w → y < im.h → ch < 3 →
      0 ≤ sample im x y ch ∧ sample im x y ch ≤ 1) :
    ∀ x y ch, x < im.w → y < im.h → ch < 3 →
      sample (hsv_to_rgb (rgb_to_hsv (copy_image im))) x y ch = sample im x y ch := by
  rw [copy_image_eq]
  obtain ⟨hd1, hs1⟩ := rgb_to_hsv_spec im hc3 hlen
  obtain ⟨hw1, hh1, hcc1, hl1⟩ := hd1
  have hc3b : (rgb_to_hsv im).c = 3 := by omega
  have hlenb : (rgb_to_hsv im).data.length =
      (rgb_to_hsv im).w * (rgb_to_hsv im).h * (rgb_to_hsv im).c := by
    rw [hl1, hlen, hw1, hh1, hcc1]
  obtain ⟨hd2, hs2⟩ := hsv_to_rgb_spec (rgb_to_hsv im) hc3b hlenb
  intro x y ch hx hy hch
  have hx2 : x < (rgb_to_hsv im).w := by omega
  have hy2 : y < (rgb_to_hsv im).h := by omega
  rw [hs2 x y ch hx2 hy2 hch, hs1 x y 0 hx hy (by norm_num), hs1 x y 1 hx hy (by norm_num),
    hs1 x y 2 hx hy (by norm_num)]
  have hrt := rgb_hsv_pixel_roundtrip (sample im x y 0) (sample im x y 1) (sample im x y 2)
    (hrange x y 0 hx hy (by norm_num)).1 (hrange x y 0 hx hy (by norm_num)).2
    (hrange x y 1 hx hy (by norm_num)).1 (hrange x y 1 hx hy (by norm_num)).2
    (hrange x y 2 hx hy (by norm_num)).1 (hrange x y 2 hx hy (by norm_num)).2
  have hgoal : comp3 (hsv_to_rgb_pixel
      (rgb_to_hsv_pixel (sample im x y 0) (sample im x y 1) (sample im x y 2)).1
      (rgb_to_hsv_pixel (sample im x y 0) (sample im x y 1) (sample im x y 2)).2.1
      (rgb_to_hsv_pixel (sample im x y 0) (sample im x y 1) (sample im x y 2)).2.2) ch
      = sample im x y ch := by
    rw [hrt]
    interval_cases ch <;> rfl
  exact hgoal

theorem hsv_roundtrip_correct_witness :
    sample (hsv_to_rgb (rgb_to_hsv (copy_image ⟨1, 1, 3, [1, 0, 1]⟩))) 0 0 0 =
      sample ⟨1, 1, 3, [1, 0, 1]⟩ 0 0 0 :=
  hsv_roundtrip_correct ⟨1, 1, 3, [1, 0, 1]⟩ rfl (by decide)
    (by
      intro x y ch hx hy hch
      have hx1 : x < 1 := hx
      have hy1 : y < 1 := hy
      interval_cases x
      interval_cases y
      interval_cases ch <;> exact ⟨by decide, by decide⟩)
    0 0 0 (by decide) (by decide) (by decide)

/-- C6: `rgb_to_grayscale` of a 3-channel image is a single-channel image
of the same width and height whose every pixel is the luma sum
`R*0.299 + G*0.587 + B*0.114`; in particular a uniform image with
`R=G=B=k` maps to `k` everywhere, the weights summing to 1. -/
theorem rgb_to_grayscale_correct (im : image) (hc : im.c = 3) :
    (rgb_to_grayscale im).w = im.w ∧ (rgb_to_grayscale im).h = im.h ∧
    (rgb_to_grayscale im).c = 1 ∧
    (∀ x y, x < im.w → y < im.h →
      sample (rgb_to_grayscale im) x y 0 =
        sample im x y 0 * (299/1000) + sample im x y 1 * (587/1000) +
        sample im x y 2 * (114/1000)) ∧
    (∀ k : ℚ, (∀ x y ch, x < im.w → y < im.h → ch < 3 → sample im x y ch = k) →
      ∀ x y, x < im.w → y < im.h → sample (rgb_to_grayscale im) x y 0 = k) := by
  obtain ⟨hdims, hsamp⟩ := rgb_to_grayscale_spec im
  have hmain : ∀ x y, x < im.w → y < im.h →
      sample (rgb_to_grayscale im) x y 0 = sample im x y 0 * (299/1000) +
        sample im x y 1 * (587/1000) + sample im x y 2 * (114/1000) := by
    intro x y hx hy
    have e := hsamp x y hx hy
    have r0 : get_pixel im (x : ℤ) (y : ℤ) (0 : ℤ) = sample im x y 0 :=
      get_pixel_valid im hx hy (show (0 : ℕ) < im.c by omega)
    have r1 : get_pixel im (x : ℤ) (y : ℤ) (1 : ℤ) = sample im x y 1 :=
      get_pixel_valid im hx hy (show (1 : ℕ) < im.c by omega)
    have r2 : get_pixel im (x : ℤ) (y : ℤ) (2 : ℤ) = sample im x y 2 :=
      get_pixel_valid im hx hy (show (2 : ℕ) < im.c by omega)
    rw [r0, r1, r2] at e
    have hidx : idx (rgb_to_grayscale im) x y 0 = x + y * im.w := by
      unfold idx
      rw [hdims.1, hdims.2.1]
      rfl
    show (rgb_to_grayscale im).data.getD (idx (rgb_to_grayscale im) x y 0) 0 = _
    rw [hidx]
    exact e
  refine ⟨hdims.1, hdims.2.1, hdims.2.2.1, hmain, ?_⟩
  intro k hk x y hx hy
  rw [hmain x y hx hy, hk x y 0 hx hy (by norm_num), hk x y 1 hx hy (by norm_num),
    hk x y 2 hx hy (by norm_num)]
  ring

theorem rgb_to_grayscale_correct_witness :
    sample (rgb_to_grayscale ⟨1, 1, 3, [1/4, 1/2, 3/4]⟩) 0 0 0 =
      (1/4 : ℚ) * (299/1000) + (1/2 : ℚ) * (587/1000) + (3/4 : ℚ) * (114/1000) := by
  have h := (rgb_to_grayscale_correct ⟨1, 1, 3, [1/4, 1/2, 3/4]⟩ rfl).2.2.2.1 0 0
    (by decide) (by decide)
  rw [h]
  norm_num [sample, idx]

/-- C7: `clamp_image` is idempotent — applying it twice yields the same
image as applying it once — and after one application every sample at
every valid coordinate lies in [0,1]. -/
theorem clamp_image_correct (im : image) (hlen : im.data.length = im.w * im.h * im.c) :
    clamp_image (clamp_image im) = clamp_image im ∧
    ∀ x y ch, x < im.w → y < im.h → ch < im.c →
      0 ≤ sample (clamp_image im) x y ch ∧ sample (clamp_image im) x y ch ≤ 1 := by
  obtain ⟨hdims1, hsamp1⟩ := clamp_image_spec im hlen
  have hlen1 : (clamp_image im).data.length =
      (clamp_image im).w * (clamp_image im).h * (clamp_image im).c := by
    rw [hdims1.1, hdims1.2.1, hdims1.2.2.1, hdims1.2.2.2, hlen]
  obtain ⟨hdims2, hsamp2⟩ := clamp_image_spec (clamp_image im) hlen1
  constructor
  · apply image.ext hdims2.1 hdims2.2.1 hdims2.2.2.1
    apply List.ext_getElem hdims2.2.2.2
    intro m hm1 hm2
    rw [← List.getD_eq_getElem _ 0 hm1, ← List.getD_eq_getElem _ 0 hm2]
    have hm3 : m < im.w * im.h * im.c := by
      rw [← hlen, ← hdims1.2.2.2]
      exact hm2
    obtain ⟨x, y, ch, hx, hy, hch, hidxm⟩ := idx_decode im hm3
    subst hidxm
    have hw2 : (clamp_image (clamp_image im)).w = im.w := hdims2.1.trans hdims1.1
    have hh2 : (clamp_image (clamp_image im)).h = im.h := hdims2.2.1.trans hdims1.2.1
    have hw1 : (clamp_image im).w = im.w := hdims1.1
    have hh1 : (clamp_image im).h = im.h := hdims1.2.1
    have hc1 : (clamp_image im).c = im.c := hdims1.2.2.1
    have e2 := hsamp2 x y ch (by omega) (by omega) (by omega)
    have e1 := hsamp1 x y ch hx hy hch
    have i2 : idx (clamp_image (clamp_image im)) x y ch = idx im x y ch :=
      idx_congr hw2 hh2 x y ch
    have i1 : idx (clamp_image im) x y ch = idx im x y ch := idx_congr hw1 hh1 x y ch
    calc (clamp_image (clamp_image im)).data.getD (idx im x y ch) 0
        = sample (clamp_image (clamp_image im)) x y ch := by
          simp only [sample]
          rw [i2]
      _ = clampQ (sample (clamp_image im) x y ch) := e2
      _ = clampQ (clampQ (sample im x y ch)) := by rw [e1]
      _ = clampQ (sample im x y ch) := clampQ_idem _
      _ = sample (clamp_image im) x y ch := e1.symm
      _ = (clamp_image im).data.getD (idx im x y ch) 0 := by
          simp only [sample]
          rw [i1]
  · intro x y ch hx hy hch
    rw [hsamp1 x y ch hx hy hch]
    exact clampQ_mem _

theorem clamp_image_correct_witness :
    clamp_image (clamp_image ⟨1, 1, 1, [2]⟩) = clamp_image ⟨1, 1, 1, [2]⟩ :=
  (clamp_image_correct ⟨1, 1, 1, [2]⟩ (by decide)).1

/-- C8: `copy_image` returns an image of identical dimensions whose every
sample equals the corresponding sample of the source, and a `set_pixel`
write into the copy changes only the written coordinate of the copy while
every other valid coordinate still reads the source's original value (in
this persistent model the source value itself is never mutated). -/
theorem copy_image_correct (im : image) (hlen : im.data.length = im.w * im.h * im.c) :
    (copy_image im).w = im.w ∧ (copy_image im).h = im.h ∧ (copy_image im).c = im.c ∧
    (∀ x y ch, sample (copy_image im) x y ch = sample im x y ch) ∧
    ∀ x y ch v, x < im.w → y < im.h → ch < im.c →
      sample (set_pixel (copy_image im) (x : ℤ) (y : ℤ) (ch : ℤ) v) x y ch = v ∧
      ∀ x1 y1 ch1, x1 < im.w → y1 < im.h → ch1 < im.c → ¬(x1 = x ∧ y1 = y ∧ ch1 = ch) →
        sample (set_pixel (copy_image im) (x : ℤ) (y : ℤ) (ch : ℤ) v) x1 y1 ch1 =
          sample im x1 y1 ch1 := by
  refine ⟨rfl, rfl, rfl, fun x y ch => rfl, ?_⟩
  intro x y ch v hx hy hch
  constructor
  · show sample (set_pixel im (x : ℤ) (y : ℤ) (ch : ℤ) v) x y ch = v
    rw [set_pixel_valid im hx hy hch]
    exact getD_set_self _ _ _ (by rw [hlen]; exact idx_lt im hx hy hch)
  · intro x1 y1 ch1 hx1 hy1 hch1 hne
    show sample (set_pixel im (x : ℤ) (y : ℤ) (ch : ℤ) v) x1 y1 ch1 = sample im x1 y1 ch1
    rw [set_pixel_valid im hx hy hch]
    refine getD_set_ne _ _ ?_
    intro he
    obtain ⟨e1, e2, e3⟩ := idx_inj im hx hy hx1 hy1 he
    exact hne ⟨e1.symm, e2.symm, e3.symm⟩

theorem copy_image_correct_witness :
    sample (set_pixel (copy_image img2x2) 0 0 0 7) 0 0 0 = 7 ∧
    sample (set_pixel (copy_image img2x2) 0 0 0 7) 1 0 0 = sample img2x2 1 0 0 :=
  ⟨((copy_image_correct img2x2 (by decide)).2.2.2.2 0 0 0 7
      (by decide) (by decide) (by decide)).1,
   ((copy_image_correct img2x2 (by decide)).2.2.2.2 0 0 0 7
      (by decide) (by decide) (by decide)).2 1 0 0
      (by decide) (by decide) (by decide) (by decide)⟩

/-- C9: a write at `x = im.w` (with `1 <= im.w`, `y <= im.h - 2` and a
valid channel) passes `set_pixel`'s bounds checks and its linear offset
aliases the first column of the next row: the sample at `(0, y+1, ch)`
becomes `v` while every other valid sample is unchanged and the
dimensions are untouched. -/
theorem set_pixel_row_alias (im : image) (y ch : ℕ) (v : ℚ)
    (hw : 1 ≤ im.w) (hy : y + 1 < im.h) (hch : ch < im.c)
    (hlen : im.data.length = im.w * im.h * im.c) :
    sample (set_pixel im (im.w : ℤ) (y : ℤ) (ch : ℤ) v) 0 (y + 1) ch = v ∧
    (set_pixel im (im.w : ℤ) (y : ℤ) (ch : ℤ) v).w = im.w ∧
    (set_pixel im (im.w : ℤ) (y : ℤ) (ch : ℤ) v).h = im.h ∧
    (set_pixel im (im.w : ℤ) (y : ℤ) (ch : ℤ) v).c = im.c ∧
    ∀ x1 y1 ch1, x1 < im.w → y1 < im.h → ch1 < im.c → ¬(x1 = 0 ∧ y1 = y + 1 ∧ ch1 = ch) →
      sample (set_pixel im (im.w : ℤ) (y : ℤ) (ch : ℤ) v) x1 y1 ch1 =
        sample im x1 y1 ch1 := by
  have hy0 : y < im.h := by omega
  rw [set_pixel_at_w im y ch v hy0 hch]
  refine ⟨?_, rfl, rfl, rfl, ?_⟩
  · exact getD_set_self _ _ _ (by rw [hlen]; exact idx_lt im (by omega) hy hch)
  · intro x1 y1 ch1 hx1 hy1 hch1 hne
    refine getD_set_ne _ _ ?_
    intro he
    obtain ⟨e1, e2, e3⟩ := idx_inj im (by omega) hy hx1 hy1 he
    exact hne ⟨e1.symm, e2.symm, e3.symm⟩

theorem set_pixel_row_alias_witness :
    sample (set_pixel (⟨2, 3, 1, [1, 2, 3, 4, 5, 6]⟩ : image) 2 0 0 9) 0 1 0 = 9 :=
  (set_pixel_row_alias ⟨2, 3, 1, [1, 2, 3, 4, 5, 6]⟩ 0 0 9
    (by decide) (by decide) (by decide) (by decide)).1

/-- C10: `shift_image` with a channel index strictly greater than `im.c`
leaves the image unchanged: every write it attempts is dropped by
`set_pixel`'s channel guard. -/
theorem shift_image_channel_out_of_range (im : image) (c : ℤ) (v : ℚ)
    (hc : c > (im.c : ℤ)) : shift_image im c v = im := by
  unfold shift_image
  refine foldl_inv _ (fun b => b.c = im.c) _ ?_ im rfl
  intro b i hi hb
  show (List.range im.h).foldl
    (fun accJ (j : ℕ) => set_pixel accJ (i : ℤ) (j : ℤ) c
      (get_pixel accJ (i : ℤ) (j : ℤ) c + v)) b = b
  refine foldl_inv _ (fun b2 => b2.c = im.c) _ ?_ b hb
  intro b2 j hj hb2
  show set_pixel b2 (i : ℤ) (j : ℤ) c (get_pixel b2 (i : ℤ) (j : ℤ) c + v) = b2
  exact set_pixel_channel_high b2 _ _ c _ (by rw [hb2]; exact hc)

theorem shift_image_channel_out_of_range_witness :
    shift_image img1x1 2 5 = img1x1 :=
  shift_image_channel_out_of_range img1x1 2 5 (by decide)
